import Mathlib

/-!
Verification development for the SSA-based form-body-limit analyzer
(package `analyzers`, file `form_parsing_limits.go` as embedded in the
repository sources).

SSA values are modelled as natural-number identifiers.  A `Graph` assigns
each value identifier its instruction kind (the cases distinguished by
`dependsOnDepth`'s type switch), its static type, its referrer
instructions, and — for values that are functions — the function data the
analyzer inspects (`Name`, package path, receiver, parameters, free
variables, basic blocks).

Go `nil` checks on `ssa.Value` operands are represented with `Option`
where the operand may be absent in a well-formed SSA graph
(`Slice.Low/High/Max`, `CallCommon.Value`, `StaticCallee`); pointer
values that are never nil in a built SSA program (parameters, operands of
unary instructions) are plain identifiers, so the source's defensive
`== nil` guards on them are vacuous in the model.
-/

/-- Static types, as far as the analyzer inspects them: a named type with
its package path (`nil` package modelled as `none`), a pointer type, or
anything else. -/
inductive Ty where
  | named (name : String) (pkgPath : Option String)
  | ptr (elem : Ty)
  | other
deriving DecidableEq, Repr

/-- `ssa.CallCommon`: the callee operand (`Value`, absent models Go nil),
the argument list, the invoked interface-method name (`Method`, `some`
exactly in invoke mode), and the value identifier of the static callee
function (`StaticCallee()`, absent models Go nil). -/
structure CallCommon where
  value : Option Nat
  args : List Nat
  method : Option String
  staticCallee : Option Nat
deriving DecidableEq, Repr

/-- Basic-block instructions, restricted to the shapes the analyzer
distinguishes: `*ssa.Store` (address, stored value), `*ssa.Call`
(a `CallInstruction` that is also a call value), `*ssa.Go`/`*ssa.Defer`
(a `CallInstruction` that is not a `*ssa.Call`), `*ssa.MakeClosure`
(closure function if the `*ssa.Function` cast succeeds, and bindings),
and anything else.  Each instruction carries its source position. -/
inductive Instr where
  | store (addr val : Nat) (pos : Nat)
  | callI (c : CallCommon) (pos : Nat)
  | goDefer (c : CallCommon) (pos : Nat)
  | makeClosure (fn : Option Nat) (bindings : List Nat) (pos : Nat)
  | otherI (pos : Nat)
deriving DecidableEq, Repr

/-- The data of an `*ssa.Function` that the analyzer reads: `Name()`,
`Pkg.Pkg.Path()` (absent models a nil `Pkg` or `Pkg.Pkg`),
`Signature.Recv().Type()` (absent models a nil signature or a
receiver-less function), `Params`, `FreeVars` and `Blocks`. -/
structure FuncInfo where
  name : String
  pkgPath : Option String
  recv : Option Ty
  params : List Nat
  freeVars : List Nat
  blocks : List (List Instr)
deriving DecidableEq, Repr

/-- The kind of an SSA value: one constructor per case of
`dependsOnDepth`'s type switch, plus `alloc` (matched by
`bindingDependsOnValue`) and `leaf` for every other value kind
(parameters, constants, globals, ...), which contribute no operands. -/
inductive VKind where
  | changeType (x : Nat)
  | makeInterface (x : Nat)
  | typeAssert (x : Nat)
  | unOp (x : Nat)
  | fieldAddr (x : Nat) (fieldIdx : Nat)
  | fieldV (x : Nat)
  | indexAddr (x idx : Nat)
  | indexV (x idx : Nat)
  | slice (x : Nat) (low high mx : Option Nat)
  | extract (tuple : Nat)
  | phi (edges : List Nat)
  | call (c : CallCommon)
  | alloc
  | leaf
deriving DecidableEq, Repr

/-- A frozen SSA value graph. -/
structure Graph where
  kind : Nat → VKind
  tyOf : Nat → Ty
  funcs : Nat → FuncInfo
  referrers : Nat → List Instr

/-- `dependencyChecker`: the memo cache and the transient visiting set,
both keyed by `(value, target)` pairs. -/
structure Checker where
  memo : Nat × Nat → Option Bool
  visiting : Nat × Nat → Bool

/-- `newDependencyChecker`: empty memo, empty visiting set. -/
def newDependencyChecker : Checker :=
  { memo := fun _ => none, visiting := fun _ => false }

/-- Modelled from the spec: the recursion bound `MaxDepth` is declared
outside the embedded sources; the spec fixes `depth ≤ MAX_DEPTH
(recommended: 32)`. -/
def MaxDepth : Nat := 32

/-- The ordered operand list followed by `dependsOnDepth`'s type switch,
one case per constructor: ChangeType/MakeInterface/TypeAssert/UnOp/
FieldAddr/Field follow `{X}`; IndexAddr/Index follow `{X, Index}`; Slice
follows `X` then the non-nil ones of `Low`, `High`, `Max`; Extract
follows `{Tuple}`; Phi follows all edges in order; Call follows the
callee value (when non-nil) then all arguments; all other kinds have no
operands.  The switch's sequential short-circuit evaluation is exactly a
short-circuiting scan of this list. -/
def operands (g : Graph) (v : Nat) : List Nat :=
  match g.kind v with
  | .changeType x => [x]
  | .makeInterface x => [x]
  | .typeAssert x => [x]
  | .unOp x => [x]
  | .fieldAddr x _ => [x]
  | .fieldV x => [x]
  | .indexAddr x i => [x, i]
  | .indexV x i => [x, i]
  | .slice x lo hi mx => x :: (lo.toList ++ hi.toList ++ mx.toList)
  | .extract t => [t]
  | .phi es => es
  | .call c => c.value.toList ++ c.args
  | .alloc => []
  | .leaf => []

/-- Short-circuiting scan used for the sequential operand checks of
`dependsOnDepth` under the fuel discipline: stop at the first `true`,
thread the checker state, propagate fuel exhaustion. -/
def anyO (f : Nat → Checker → Option (Bool × Checker)) :
    List Nat → Checker → Option (Bool × Checker)
  | [], c => some (false, c)
  | x :: xs, c =>
    match f x c with
    | none => none
    | some (true, c') => some (true, c')
    | some (false, c') => anyO f xs c'

/-- `dependsOnDepth`, with an explicit fuel argument bounding the
recursion nesting (`none` = fuel exhausted; the termination theorem shows
`MaxDepth + 2` fuel always suffices from depth 0).  Mirrors the source:
depth cut, identity base case, memo lookup, visiting cut, operand scan
via the type switch, then visiting deletion and memoization of the
result. -/
def dependsOnFuel (g : Graph) (target : Nat) :
    Nat → Nat → Nat → Checker → Option (Bool × Checker)
  | 0, _, _, _ => none
  | fuel + 1, v, depth, c =>
    if MaxDepth < depth then some (false, c)
    else if v = target then some (true, c)
    else
      match c.memo (v, target) with
      | some r => some (r, c)
      | none =>
        if c.visiting (v, target) then some (false, c)
        else
          let c1 : Checker :=
            { c with visiting := fun k => if k = (v, target) then true else c.visiting k }
          match anyO (fun x cx => dependsOnFuel g target fuel x (depth + 1) cx)
              (operands g v) c1 with
          | none => none
          | some (result, c2) =>
            some (result,
              { memo := fun k => if k = (v, target) then some result else c2.memo k,
                visiting := fun k => if k = (v, target) then false else c2.visiting k })

/-- `dependsOn`: the top-level query `dependsOnDepth(value, target, 0)`,
run with sufficient fuel (the default is unreachable by the termination
theorem). -/
def dependsOn (g : Graph) (v target : Nat) (c : Checker) : Bool × Checker :=
  (dependsOnFuel g target (MaxDepth + 2) v 0 c).getD (false, c)

/-- Short-circuiting scan threading the checker state: the shape of every
`for ... { if cond(...) { return true } }`-style loop in the analyzer.
Stops at the first element whose test returns `true`. -/
def scanB {α : Type} (f : α → Checker → Bool × Checker) :
    List α → Checker → Bool × Checker
  | [], c => (false, c)
  | x :: xs, c =>
    match f x c with
    | (true, c') => (true, c')
    | (false, c') => scanB f xs c'

/-- `isHTTPResponseWriterType`: a named type whose object is named
`ResponseWriter` in a non-nil package with path `net/http`. -/
def isHTTPResponseWriterType : Ty → Bool
  | .named n p => n = "ResponseWriter" && p = some "net/http"
  | _ => false

/-- Modelled from the spec: `isHTTPRequestPointerType` (defined outside
the embedded sources) recognizes the type `*Request`, a pointer to the
named type `Request` of package `net/http`. -/
def isHTTPRequestPointerType : Ty → Bool
  | .ptr (.named n p) => n = "Request" && p = some "net/http"
  | _ => false

/-- The parameter loop of `findHandlerRequestAndWriterParams`: the first
`*http.Request` parameter is taken as request (and skips the writer
test), the first `http.ResponseWriter` parameter as writer.  The
source's `param == nil` guard is vacuous (parameters of a built SSA
function are non-nil). -/
def findHandlerGo (g : Graph) :
    List Nat → Option Nat → Option Nat → Option Nat × Option Nat
  | [], r, w => (r, w)
  | p :: ps, r, w =>
    if r.isNone && isHTTPRequestPointerType (g.tyOf p) then
      findHandlerGo g ps (some p) w
    else if w.isNone && isHTTPResponseWriterType (g.tyOf p) then
      findHandlerGo g ps r (some p)
    else
      findHandlerGo g ps r w

/-- `findHandlerRequestAndWriterParams` on the function with identifier
`f` (the source's `fn == nil` guard is vacuous in the model). -/
def findHandlerRequestAndWriterParams (g : Graph) (f : Nat) :
    Option Nat × Option Nat :=
  findHandlerGo g (g.funcs f).params none none

/-- The `*ssa.Call` case of `isMaxBytesReaderValue`: the static callee
must be named `MaxBytesReader` in a non-nil package with path
`net/http`, the call must have at least three arguments, and the first
two arguments must depend on the writer and request parameters
respectively. -/
def maxBytesReaderCallCheck (g : Graph) (req w : Nat) (cc : CallCommon)
    (c : Checker) : Bool × Checker :=
  match cc.staticCallee with
  | none => (false, c)
  | some fid =>
    if (g.funcs fid).name ≠ "MaxBytesReader" then (false, c)
    else if (g.funcs fid).pkgPath ≠ some "net/http" then (false, c)
    else
      match cc.args with
      | a0 :: a1 :: _ :: _ =>
        match dependsOn g a0 w c with
        | (false, c') => (false, c')
        | (true, c') => dependsOn g a1 req c'
      | _ => (false, c)

/-- `isMaxBytesReaderValue` with an explicit fuel bounding the recursion
nesting; the source bounds it by the `depth > MaxDepth` cut.  A call
value qualifies per `maxBytesReaderCallCheck`;
ChangeType/MakeInterface/TypeAssert/Phi are transparent; everything else
fails. -/
def isMaxBytesReaderFuel (g : Graph) (req w : Nat) :
    Nat → Nat → Nat → Checker → Option (Bool × Checker)
  | 0, _, _, _ => none
  | fuel + 1, v, depth, c =>
    if MaxDepth < depth then some (false, c)
    else
      match g.kind v with
      | .call cc => some (maxBytesReaderCallCheck g req w cc c)
      | .changeType x => isMaxBytesReaderFuel g req w fuel x (depth + 1) c
      | .makeInterface x => isMaxBytesReaderFuel g req w fuel x (depth + 1) c
      | .typeAssert x => isMaxBytesReaderFuel g req w fuel x (depth + 1) c
      | .phi es =>
        anyO (fun e ce => isMaxBytesReaderFuel g req w fuel e (depth + 1) ce) es c
      | _ => some (false, c)

/-- `isMaxBytesReaderValue`, run with sufficient fuel. -/
def isMaxBytesReaderValue (g : Graph) (v req w : Nat) (c : Checker)
    (depth : Nat) : Bool × Checker :=
  (isMaxBytesReaderFuel g req w (MaxDepth + 2) v depth c).getD (false, c)

/-- `isRequestBodyStoreFromMaxBytesReader` on a store with address `addr`
and stored value `val`: the address must be a `FieldAddr` whose base
depends on the request parameter (no constraint on which field), and the
stored value must be a `MaxBytesReader` call value. -/
def isRequestBodyStoreFromMaxBytesReader (g : Graph) (addr val req w : Nat)
    (c : Checker) : Bool × Checker :=
  match g.kind addr with
  | .fieldAddr x _ =>
    match dependsOn g x req c with
    | (false, c') => (false, c')
    | (true, c') => isMaxBytesReaderValue g val req w c' 0
  | _ => (false, c)

/-- `functionHasRequestBodyLimit`: scan all blocks for a `Store`
instruction qualifying under `isRequestBodyStoreFromMaxBytesReader`. -/
def functionHasRequestBodyLimit (g : Graph) (fi : FuncInfo) (req w : Nat)
    (c : Checker) : Bool × Checker :=
  scanB (fun blk cb =>
    scanB (fun i ci =>
      match i with
      | .store a v _ => isRequestBodyStoreFromMaxBytesReader g a v req w ci
      | _ => (false, ci)) blk cb) fi.blocks c

/-- The receiver/writer/request argument triple of a `ServeHTTP` call
site, when the call has the shape `hasServeHTTPDelegation` accepts:
either an interface invocation of a method named `ServeHTTP` with at
least two arguments (receiver is `common.Value`), or a static call to a
method named `ServeHTTP` with at least three arguments (receiver is the
first argument).  An invoke-mode call with nil `common.Value` is
equivalent to failing the receiver dependency check in the source. -/
def serveHTTPCallTriple (g : Graph) (cc : CallCommon) :
    Option (Nat × Nat × Nat) :=
  if cc.method = some "ServeHTTP" then
    match cc.value, cc.args with
    | some rcv, a0 :: a1 :: _ => some (rcv, a0, a1)
    | _, _ => none
  else
    match cc.staticCallee with
    | none => none
    | some fid =>
      if (g.funcs fid).name = "ServeHTTP" && (g.funcs fid).recv.isSome then
        match cc.args with
        | r0 :: a1 :: a2 :: _ => some (r0, a1, a2)
        | _ => none
      else none

/-- `hasServeHTTPDelegation`: some `*ssa.Call` in the function delegates
via `ServeHTTP` with receiver depending on the handler value and
writer/request arguments depending on the given writer/request
values. -/
def hasServeHTTPDelegation (g : Graph) (fi : FuncInfo)
    (handlerValue writerValue requestValue : Nat) (c : Checker) :
    Bool × Checker :=
  scanB (fun blk cb =>
    scanB (fun i ci =>
      match i with
      | .callI cc _ =>
        match serveHTTPCallTriple g cc with
        | none => (false, ci)
        | some (rcv, wv, rv) =>
          match dependsOn g rcv handlerValue ci with
          | (false, c1) => (false, c1)
          | (true, c1) =>
            match dependsOn g wv writerValue c1 with
            | (false, c2) => (false, c2)
            | (true, c2) => dependsOn g rv requestValue c2
      | _ => (false, ci)) blk cb) fi.blocks c

/-- Modelled from the spec: `safeReferrers` (defined outside the embedded
sources) returns the referrer instructions of a value, guarding the nil
`Referrers()` case; modelled as the graph's referrer table. -/
def safeReferrers (g : Graph) (v : Nat) : List Instr := g.referrers v

/-- `bindingDependsOnValue`: a closure binding depends on the target
either directly, or — when the binding is an `Alloc` cell — through a
`Store` into that cell whose stored value depends on the target. -/
def bindingDependsOnValue (g : Graph) (binding target : Nat) (c : Checker) :
    Bool × Checker :=
  match dependsOn g binding target c with
  | (true, c') => (true, c')
  | (false, c') =>
    match g.kind binding with
    | .alloc =>
      scanB (fun i ci =>
        match i with
        | .store a v _ =>
          if a = binding then dependsOn g v target ci else (false, ci)
        | _ => (false, ci)) (safeReferrers g binding) c'
    | _ => (false, c')

/-- `wrapperDelegatesWithRequestLimit` on the wrapper with identifier
`wf`: the wrapper is itself a handler, bounds the request body, and
delegates via `ServeHTTP` to the handler value. -/
def wrapperDelegatesWithRequestLimit (g : Graph) (wf handlerValue : Nat)
    (c : Checker) : Bool × Checker :=
  match findHandlerRequestAndWriterParams g wf with
  | (some req, some w) =>
    match functionHasRequestBodyLimit g (g.funcs wf) req w c with
    | (false, c') => (false, c')
    | (true, c') => hasServeHTTPDelegation g (g.funcs wf) handlerValue w req c'
  | _ => (false, c)

/-- `closureDelegatesWithRequestLimit` on the closure with identifier
`cf`: the free variable at `freeVarIndex` is the captured handler and the
closure delegates to it via `ServeHTTP` (the `freeVarIndex < 0` guard is
vacuous for a natural-number index). -/
def closureDelegatesWithRequestLimit (g : Graph) (cf freeVarIndex req w : Nat)
    (c : Checker) : Bool × Checker :=
  match (g.funcs cf).freeVars[freeVarIndex]? with
  | none => (false, c)
  | some hv => hasServeHTTPDelegation g (g.funcs cf) hv w req c

/-- `wrapperProtectsParamHandler` on the wrapper with identifier `wf`
(the `paramIndex < 0` guard is vacuous for a natural-number index):
either the wrapper delegates directly with a request limit, or it builds
a protected closure over the handler parameter that delegates. -/
def wrapperProtectsParamHandler (g : Graph) (wf paramIndex : Nat)
    (c : Checker) : Bool × Checker :=
  match (g.funcs wf).params[paramIndex]? with
  | none => (false, c)
  | some handlerParam =>
    match wrapperDelegatesWithRequestLimit g wf handlerParam c with
    | (true, c') => (true, c')
    | (false, c') =>
      scanB (fun blk cb =>
        scanB (fun i ci =>
          match i with
          | .makeClosure (some cfn) bindings _ =>
            match findHandlerRequestAndWriterParams g cfn with
            | (some req, some w) =>
              match functionHasRequestBodyLimit g (g.funcs cfn) req w ci with
              | (false, c1) => (false, c1)
              | (true, c1) =>
                scanB (fun bi c2 =>
                  match bindingDependsOnValue g bi.2 handlerParam c2 with
                  | (false, c3) => (false, c3)
                  | (true, c3) =>
                    closureDelegatesWithRequestLimit g cfn bi.1 req w c3)
                  bindings.enum c1
            | _ => (false, ci)
          | _ => (false, ci)) blk cb) (g.funcs wf).blocks c'

/-- The `Common()` of a `CallInstruction` (`*ssa.Call`, `*ssa.Go`,
`*ssa.Defer`); `none` for instructions that are not call sites.  The
source's `common == nil` guard is vacuous. -/
def callCommonOf : Instr → Option CallCommon
  | .callI cc _ => some cc
  | .goDefer cc _ => some cc
  | _ => none

/-- The source position of an instruction. -/
def posOf : Instr → Nat
  | .store _ _ p => p
  | .callI _ p => p
  | .goDefer _ p => p
  | .makeClosure _ _ p => p
  | .otherI p => p

/-- `isProtectedByWrapperCall`: some call site in some function passes a
value depending on the handler as argument `i` to a static callee that
protects its `i`-th parameter (the `fn == nil` guard is vacuous). -/
def isProtectedByWrapperCall (g : Graph) (handler : Nat)
    (allFuncs : List Nat) (c : Checker) : Bool × Checker :=
  scanB (fun fn cf =>
    scanB (fun blk cb =>
      scanB (fun i ci =>
        match callCommonOf i with
        | none => (false, ci)
        | some cc =>
          match cc.staticCallee with
          | none => (false, ci)
          | some wrapper =>
            scanB (fun ai c2 =>
              match dependsOn g ai.2 handler c2 with
              | (false, c3) => (false, c3)
              | (true, c3) => wrapperProtectsParamHandler g wrapper ai.1 c3)
              cc.args.enum ci) blk cb) (g.funcs fn).blocks cf) allFuncs c

/-- Modelled from the spec: `collectAnalyzerFunctions` (defined outside
the embedded sources) yields the set of source functions to analyze;
modelled as the source-function list itself. -/
def collectAnalyzerFunctions (srcFuncs : List Nat) : List Nat := srcFuncs

/-- The per-handler loop of `computeFormParsingHandlerProtection`: a
handler is marked protected when it bounds the request body directly or
is protected by a wrapper call. -/
def computeProtGo (g : Graph) (allFuncs : List Nat) :
    List Nat → (Nat → Bool) → Checker → (Nat → Bool) × Checker
  | [], prot, c => (prot, c)
  | fn :: fns, prot, c =>
    match findHandlerRequestAndWriterParams g fn with
    | (some req, some w) =>
      match functionHasRequestBodyLimit g (g.funcs fn) req w c with
      | (true, c') =>
        computeProtGo g allFuncs fns (fun k => if k = fn then true else prot k) c'
      | (false, c') =>
        match isProtectedByWrapperCall g fn allFuncs c' with
        | (true, c2) =>
          computeProtGo g allFuncs fns (fun k => if k = fn then true else prot k) c2
        | (false, c2) => computeProtGo g allFuncs fns prot c2
    | _ => computeProtGo g allFuncs fns prot c

/-- `computeFormParsingHandlerProtection` (an absent key of the Go map
reads back `false`, modelled by the default of the protection
function). -/
def computeFormParsingHandlerProtection (g : Graph) (srcFuncs : List Nat)
    (c : Checker) : (Nat → Bool) × Checker :=
  computeProtGo g (collectAnalyzerFunctions srcFuncs)
    (collectAnalyzerFunctions srcFuncs) (fun _ => false) c

/-- `isRiskyFormParsingCall`: the static callee is a method with a
`*net/http.Request` receiver named `ParseForm`, `ParseMultipartForm`,
`FormValue` or `PostFormValue`, and the receiver argument depends on the
handler's request parameter. -/
def isRiskyFormParsingCall (g : Graph) (cc : CallCommon) (req : Nat)
    (c : Checker) : Bool × Checker :=
  match cc.staticCallee with
  | none => (false, c)
  | some fid =>
    match (g.funcs fid).recv with
    | none => (false, c)
    | some rt =>
      if !isHTTPRequestPointerType rt then (false, c)
      else
        if (g.funcs fid).name ≠ "ParseForm" ∧
            (g.funcs fid).name ≠ "ParseMultipartForm" ∧
            (g.funcs fid).name ≠ "FormValue" ∧
            (g.funcs fid).name ≠ "PostFormValue" then (false, c)
        else
          match cc.args with
          | [] => (false, c)
          | a0 :: _ => dependsOn g a0 req c

/-- Modelled from the spec: `addRedirectIssue` (defined outside the
embedded sources) builds the issue record for the given position and
records it in the per-position map, which "ensures at most one finding
per position per rule"; issues are abstracted to their positions and the
map to its ordered key list. -/
def addRedirectIssue (m : List Nat) (pos : Nat) : List Nat :=
  if pos ∈ m then m else m ++ [pos]

/-- The instruction loop of `runFormParsingLimitAnalysis`: every call
instruction that is a risky form-parsing call contributes its position
to the issue map. -/
def riskyInstrs (g : Graph) (req : Nat) :
    List Instr → List Nat → Checker → List Nat × Checker
  | [], m, c => (m, c)
  | i :: is, m, c =>
    match callCommonOf i with
    | none => riskyInstrs g req is m c
    | some cc =>
      match isRiskyFormParsingCall g cc req c with
      | (false, c') => riskyInstrs g req is m c'
      | (true, c') => riskyInstrs g req is (addRedirectIssue m (posOf i)) c'

/-- The block loop of `runFormParsingLimitAnalysis`. -/
def riskyBlocks (g : Graph) (req : Nat) :
    List (List Instr) → List Nat → Checker → List Nat × Checker
  | [], m, c => (m, c)
  | blk :: blks, m, c =>
    let (m', c') := riskyInstrs g req blk m c
    riskyBlocks g req blks m' c'

/-- The function loop of `runFormParsingLimitAnalysis`: non-handlers and
protected handlers are skipped; the bodies of the remaining handlers are
scanned for risky calls. -/
def riskyScanGo (g : Graph) (prot : Nat → Bool) :
    List Nat → List Nat → Checker → List Nat × Checker
  | [], m, c => (m, c)
  | fn :: fns, m, c =>
    match findHandlerRequestAndWriterParams g fn with
    | (some req, some _) =>
      if prot fn then riskyScanGo g prot fns m c
      else
        let (m', c') := riskyBlocks g req (g.funcs fn).blocks m c
        riskyScanGo g prot fns m' c'
    | _ => riskyScanGo g prot fns m c

/-- `runFormParsingLimitAnalysis`, returned as the Go `(result, error)`
pair.  The absent-SSA branch is modelled from the spec
(`ssautil.GetSSAResult` is defined outside the embedded sources: a
missing SSA result fails the run with an informative message).  An empty
issue map yields `(nil, nil)`; otherwise the issues — abstracted to
their positions — are returned without error. -/
def runFormParsingLimitAnalysis (g : Graph) (pass : Option (List Nat)) :
    Option (List Nat) × Option String :=
  match pass with
  | none => (none, some "no SSA result found in analysis pass")
  | some srcFuncs =>
    let p := computeFormParsingHandlerProtection g srcFuncs newDependencyChecker
    let r := riskyScanGo g p.1 (collectAnalyzerFunctions srcFuncs) [] p.2
    if r.1 = [] then (none, none) else (some r.1, none)

/-- Modelled from the spec: `valueDependsOn` (referenced by the package's
tests but defined outside the embedded sources) is the cache-free
reference DFS: the same depth cut, identity base case and operand sets as
`dependsOnDepth`, with no memo cache and no visiting set; written with
fuel bounding the recursion nesting, `MaxDepth + 2` being sufficient. -/
def valueDependsOnF (g : Graph) (t : Nat) : Nat → Nat → Nat → Bool
  | 0, _, _ => false
  | fuel + 1, v, depth =>
    if MaxDepth < depth then false
    else if v = t then true
    else (operands g v).any (fun u => valueDependsOnF g t fuel u (depth + 1))

/-- The cache-free reference DFS at its public signature. -/
def valueDependsOn (g : Graph) (v t depth : Nat) : Bool :=
  valueDependsOnF g t (MaxDepth + 2) v depth

/-- `ReachesInB g n v t`: there is an operand chain of length at most `n`
from `v` to `t` through the operand sets of `dependsOnDepth`'s type
switch. -/
def ReachesInB (g : Graph) : Nat → Nat → Nat → Bool
  | 0, v, t => v == t
  | n + 1, v, t => v == t || (operands g v).any (fun u => ReachesInB g n u t)

/-- `Reaches g v t`: there is an operand chain of some length from `v` to
`t`. -/
def Reaches (g : Graph) (v t : Nat) : Prop :=
  ∃ n, ReachesInB g n v t = true

/-! ### Derived scan forms and concrete graphs used in the theorems -/

/-- State-threading composition of a checker-valued test over a list,
ignoring the answers: the checker state reached after evaluating every
element in order. -/
def scanSt {α : Type} (f : α → Checker → Bool × Checker) :
    List α → Checker → Checker
  | [], c => c
  | x :: xs, c => scanSt f xs (f x c).2

/-- The `Store` instructions of a function, flattened in block order to
their (address, value) pairs. -/
def storesOf (fi : FuncInfo) : List (Nat × Nat) :=
  fi.blocks.flatten.filterMap (fun i =>
    match i with
    | .store a v _ => some (a, v)
    | _ => none)

/-- The per-store test of `functionHasRequestBodyLimit`, on (address,
value) pairs. -/
def storeStep (g : Graph) (req w : Nat) (av : Nat × Nat) (c : Checker) :
    Bool × Checker :=
  isRequestBodyStoreFromMaxBytesReader g av.1 av.2 req w c

/-- The value kinds on which `isMaxBytesReaderValue` does not immediately
return `false`. -/
def isUnwrapKind : VKind → Bool
  | .call _ => true
  | .changeType _ => true
  | .makeInterface _ => true
  | .typeAssert _ => true
  | .phi _ => true
  | _ => false

/-- The risky-call scan entries contributed by one analyzed function:
for an unprotected handler, every call instruction of its body paired
with the handler's request parameter and the instruction's position;
nothing for non-handlers and protected handlers. -/
def handlerEntries (g : Graph) (prot : Nat → Bool) (fn : Nat) :
    List (Nat × CallCommon × Nat) :=
  match findHandlerRequestAndWriterParams g fn with
  | (some req, some _) =>
    if prot fn then []
    else (g.funcs fn).blocks.flatten.filterMap (fun i =>
      (callCommonOf i).map (fun cc => (req, cc, posOf i)))
  | _ => []

/-- All risky-call scan entries of the analyzed function list, in scan
order. -/
def handlerCalls (g : Graph) (prot : Nat → Bool) :
    List Nat → List (Nat × CallCommon × Nat)
  | [] => []
  | fn :: fns => handlerEntries g prot fn ++ handlerCalls g prot fns

/-- The risky-call scan as a fold over its flattened entry list. -/
def riskyFold (g : Graph) :
    List (Nat × CallCommon × Nat) → List Nat × Checker → List Nat × Checker
  | [], mc => mc
  | e :: es, mc =>
    match isRiskyFormParsingCall g e.2.1 e.1 mc.2 with
    | (false, c') => riskyFold g es (mc.1, c')
    | (true, c') => riskyFold g es (addRedirectIssue mc.1 e.2.2, c')

/-- The checker state threaded through a prefix of the risky-call
scan. -/
def riskyFoldSt (g : Graph) :
    List (Nat × CallCommon × Nat) → Checker → Checker
  | [], c => c
  | e :: es, c => riskyFoldSt g es (isRiskyFormParsingCall g e.2.1 e.1 c).2

/-- A function record with no data, used as the default of concrete
graphs. -/
def emptyFunc : FuncInfo := ⟨"", none, none, [], [], []⟩

/-- The two-node Phi cycle of the package's tests
(`TestDependencyCheckerFindsTargetInPhiCycle`): value 0 is a Phi with
edges to value 1 and to the target 2; value 1 is a Phi with a single
edge back to value 0. -/
def gCycle : Graph :=
  { kind := fun v => if v = 0 then .phi [1, 2] else if v = 1 then .phi [0] else .leaf,
    tyOf := fun _ => .other, funcs := fun _ => emptyFunc, referrers := fun _ => [] }

/-- The two-node Phi cycle with no path to the target
(`TestDependencyCheckerHandlesPhiCycleWithoutTarget`). -/
def gNoTgt : Graph :=
  { kind := fun v => if v = 0 then .phi [1] else if v = 1 then .phi [0] else .leaf,
    tyOf := fun _ => .other, funcs := fun _ => emptyFunc, referrers := fun _ => [] }

/-- A graph where a deep exploration poisons the memo cache: value 0 is
a Phi over a 31-step UnOp chain (values 1..31) leading to value 32 and
over the single-step value 33; both reach the target 34 through value
32.  The first (deep) branch explores value 32 at depth 32, where its
operand is cut by the depth bound, memoizing `false` for value 32, so
the short chain 0 → 33 → 32 → 34 of length 3 is missed. -/
def gDeep : Graph :=
  { kind := fun v =>
      if v = 0 then .phi [1, 33]
      else if v ≤ 30 then .unOp (v + 1)
      else if v = 31 then .unOp 32
      else if v = 32 then .unOp 34
      else if v = 33 then .unOp 32
      else .leaf,
    tyOf := fun _ => .other, funcs := fun _ => emptyFunc, referrers := fun _ => [] }

/-- A handler (function 1, request parameter 10, writer parameter 11)
whose single store writes the call value 13 —
`net/http.MaxBytesReader(w, r, n)` (function 20) — through the
`FieldAddr` value 12 selecting field index `f` of the request
parameter. -/
def gStore (f : Nat) : Graph :=
  { kind := fun v =>
      if v = 12 then .fieldAddr 10 f
      else if v = 13 then .call ⟨some 20, [11, 10, 14], none, some 20⟩
      else if v = 15 then .changeType 13
      else if v = 16 then .phi [13]
      else .leaf,
    tyOf := fun v =>
      if v = 10 then .ptr (.named "Request" (some "net/http"))
      else if v = 11 then .named "ResponseWriter" (some "net/http")
      else .other,
    funcs := fun i =>
      if i = 1 then ⟨"h", some "main", none, [10, 11], [], [[.store 12 13 5]]⟩
      else if i = 20 then ⟨"MaxBytesReader", some "net/http", none, [], [], []⟩
      else emptyFunc,
    referrers := fun _ => [] }

/-- A handler (function 1) whose body calls `(*Request).ParseForm`
(function 21) on its request parameter at position 7; with `protStore`
set, the body additionally stores a `MaxBytesReader` call value into a
field of the request, making the handler protected. -/
def gProtRun (protStore : Bool) : Graph :=
  { kind := fun v =>
      if v = 12 then .fieldAddr 10 0
      else if v = 13 then .call ⟨some 20, [11, 10, 14], none, some 20⟩
      else .leaf,
    tyOf := fun v =>
      if v = 10 then .ptr (.named "Request" (some "net/http"))
      else if v = 11 then .named "ResponseWriter" (some "net/http")
      else .other,
    funcs := fun i =>
      if i = 1 then
        ⟨"h", some "main", none, [10, 11], [],
          if protStore then [[.store 12 13 5, .callI ⟨some 10, [10], none, some 21⟩ 7]]
          else [[.callI ⟨some 10, [10], none, some 21⟩ 7]]⟩
      else if i = 20 then ⟨"MaxBytesReader", some "net/http", none, [], [], []⟩
      else if i = 21 then
        ⟨"ParseForm", some "net/http",
          some (.ptr (.named "Request" (some "net/http"))), [], [], []⟩
      else emptyFunc,
    referrers := fun _ => [] }

/-! ### Core lemmas about the fuelled dependency checker -/

lemma anyO_isSome {f : Nat → Checker → Option (Bool × Checker)}
    (hf : ∀ x c, (f x c).isSome = true) :
    ∀ l c, (anyO f l c).isSome = true := by
  intro l
  induction l with
  | nil => intro c; simp [anyO]
  | cons x xs ih =>
    intro c
    have hx := hf x c
    cases hfx : f x c with
    | none => rw [hfx] at hx; simp at hx
    | some bc =>
      obtain ⟨b, c'⟩ := bc
      cases b with
      | true => simp [anyO, hfx]
      | false => simpa [anyO, hfx] using ih c'

lemma anyO_congr {f f' : Nat → Checker → Option (Bool × Checker)}
    (h : ∀ x c, f x c = f' x c) :
    ∀ l c, anyO f l c = anyO f' l c := by
  intro l
  induction l with
  | nil => intro c; rfl
  | cons x xs ih =>
    intro c
    simp only [anyO, h x c]
    cases f' x c with
    | none => rfl
    | some bc =>
      obtain ⟨b, c'⟩ := bc
      cases b <;> simp [ih c']

lemma dependsOnFuel_isSome (g : Graph) (t : Nat) :
    ∀ fuel v depth c, depth ≤ MaxDepth + 1 → MaxDepth + 1 < fuel + depth →
      (dependsOnFuel g t fuel v depth c).isSome = true := by
  intro fuel
  induction fuel with
  | zero => intro v depth c hd hf; omega
  | succ n ih =>
    intro v depth c hd hf
    simp only [dependsOnFuel]
    by_cases h1 : MaxDepth < depth
    · simp [h1]
    · simp only [h1, if_false]
      by_cases h2 : v = t
      · simp [h2]
      · simp only [h2, if_false]
        cases hm : c.memo (v, t) with
        | some r => simp
        | none =>
          simp only
          by_cases h3 : c.visiting (v, t)
          · simp [h3]
          · simp only [h3, if_false]
            have hs := anyO_isSome
              (f := fun x cx => dependsOnFuel g t n x (depth + 1) cx)
              (fun x cx => ih x (depth + 1) cx (by omega) (by omega))
              (operands g v)
            cases ha : anyO (fun x cx => dependsOnFuel g t n x (depth + 1) cx)
                (operands g v)
                { c with visiting := fun k => if k = (v, t) then true else c.visiting k } with
            | none =>
              have := hs { c with visiting := fun k => if k = (v, t) then true else c.visiting k }
              rw [ha] at this; simp at this
            | some bc => obtain ⟨b, c2⟩ := bc; simp [ha]

lemma dependsOnFuel_stabilize (g : Graph) (t : Nat) :
    ∀ a b v depth c, depth ≤ MaxDepth + 1 → MaxDepth + 1 < a + depth →
      MaxDepth + 1 < b + depth →
      dependsOnFuel g t a v depth c = dependsOnFuel g t b v depth c := by
  intro a
  induction a with
  | zero => intro b v depth c hd ha hb; omega
  | succ n ih =>
    intro b v depth c hd ha hb
    cases b with
    | zero => omega
    | succ m =>
      simp only [dependsOnFuel]
      by_cases h1 : MaxDepth < depth
      · simp [h1]
      · simp only [h1, if_false]
        by_cases h2 : v = t
        · simp [h2]
        · simp only [h2, if_false]
          cases hm : c.memo (v, t) with
          | some r => simp
          | none =>
            simp only
            by_cases h3 : c.visiting (v, t)
            · simp [h3]
            · simp only [h3, if_false]
              rw [anyO_congr (fun x cx =>
                ih m x (depth + 1) cx (by omega) (by omega) (by omega))]

lemma dependsOn_spec (g : Graph) (v t : Nat) (c : Checker) :
    dependsOnFuel g t (MaxDepth + 2) v 0 c = some (dependsOn g v t c) := by
  have hs := dependsOnFuel_isSome g t (MaxDepth + 2) v 0 c (by omega) (by omega)
  cases h : dependsOnFuel g t (MaxDepth + 2) v 0 c with
  | none => rw [h] at hs; simp at hs
  | some r => simp [dependsOn, h]

lemma anyO_visiting {f : Nat → Checker → Option (Bool × Checker)}
    (hf : ∀ x cx b cx', f x cx = some (b, cx') → cx'.visiting = cx.visiting) :
    ∀ l c b c', anyO f l c = some (b, c') → c'.visiting = c.visiting := by
  intro l
  induction l with
  | nil => intro c b c' h; simp [anyO] at h; rw [h.2]
  | cons x xs ih =>
    intro c b c' h
    cases hfx : f x c with
    | none => simp [anyO, hfx] at h
    | some bc =>
      obtain ⟨bx, cx'⟩ := bc
      have hx := hf x c bx cx' hfx
      cases bx with
      | true =>
        simp [anyO, hfx] at h
        rw [← h.2, hx]
      | false =>
        simp only [anyO, hfx] at h
        rw [ih cx' b c' h, hx]

lemma dependsOnFuel_visiting (g : Graph) (t : Nat) :
    ∀ fuel v depth c b c',
      dependsOnFuel g t fuel v depth c = some (b, c') → c'.visiting = c.visiting := by
  intro fuel
  induction fuel with
  | zero => intro v depth c b c' h; simp [dependsOnFuel] at h
  | succ n ih =>
    intro v depth c b c' h
    simp only [dependsOnFuel] at h
    by_cases h1 : MaxDepth < depth
    · simp [h1] at h; rw [h.2]
    · simp only [h1, if_false] at h
      by_cases h2 : v = t
      · simp [h2] at h; rw [h.2]
      · simp only [h2, if_false] at h
        cases hm : c.memo (v, t) with
        | some r => rw [hm] at h; simp at h; rw [h.2]
        | none =>
          rw [hm] at h
          simp only at h
          by_cases h3 : c.visiting (v, t)
          · simp [h3] at h; rw [h.2]
          · simp only [h3, if_false] at h
            cases ha : anyO (fun x cx => dependsOnFuel g t n x (depth + 1) cx)
                (operands g v)
                { c with visiting := fun k => if k = (v, t) then true else c.visiting k } with
            | none => rw [ha] at h; simp at h
            | some bc =>
              obtain ⟨result, c2⟩ := bc
              rw [ha] at h
              simp only [Bool.false_eq_true, if_false, Option.some.injEq,
                Prod.mk.injEq] at h
              have h2v := anyO_visiting (fun x cx b cx' => ih x (depth + 1) cx b cx')
                (operands g v) _ result c2 ha
              rw [← h.2]
              funext k
              by_cases hk : k = (v, t)
              · subst hk
                show (if ((v, t) : Nat × Nat) = (v, t) then false
                    else c2.visiting (v, t)) = c.visiting (v, t)
                rw [if_pos rfl]
                cases hcv : c.visiting (v, t) with
                | true => exact absurd hcv h3
                | false => rfl
              · show (if k = (v, t) then false else c2.visiting k) = c.visiting k
                rw [if_neg hk, h2v]
                show (if k = (v, t) then true else c.visiting k) = c.visiting k
                rw [if_neg hk]

lemma anyO_memoMono {f : Nat → Checker → Option (Bool × Checker)}
    (hf : ∀ x cx b cx', f x cx = some (b, cx') →
      ∀ k r, cx.memo k = some r → cx'.memo k = some r) :
    ∀ l c b c', anyO f l c = some (b, c') →
      ∀ k r, c.memo k = some r → c'.memo k = some r := by
  intro l
  induction l with
  | nil => intro c b c' h k r hk; simp [anyO] at h; rw [← h.2]; exact hk
  | cons x xs ih =>
    intro c b c' h k r hk
    cases hfx : f x c with
    | none => simp [anyO, hfx] at h
    | some bc =>
      obtain ⟨bx, cx'⟩ := bc
      have hx := hf x c bx cx' hfx
      cases bx with
      | true =>
        simp [anyO, hfx] at h
        rw [← h.2]
        exact hx k r hk
      | false =>
        simp only [anyO, hfx] at h
        exact ih cx' b c' h k r (hx k r hk)

lemma dependsOnFuel_memoMono (g : Graph) (t : Nat) :
    ∀ fuel v depth c b c',
      dependsOnFuel g t fuel v depth c = some (b, c') →
      ∀ k r, c.memo k = some r → c'.memo k = some r := by
  intro fuel
  induction fuel with
  | zero => intro v depth c b c' h; simp [dependsOnFuel] at h
  | succ n ih =>
    intro v depth c b c' h k r hk
    simp only [dependsOnFuel] at h
    by_cases h1 : MaxDepth < depth
    · simp [h1] at h; rw [← h.2]; exact hk
    · simp only [h1, if_false] at h
      by_cases h2 : v = t
      · simp [h2] at h; rw [← h.2]; exact hk
      · simp only [h2, if_false] at h
        cases hm : c.memo (v, t) with
        | some rr => rw [hm] at h; simp at h; rw [← h.2]; exact hk
        | none =>
          rw [hm] at h
          simp only at h
          by_cases h3 : c.visiting (v, t)
          · simp [h3] at h; rw [← h.2]; exact hk
          · simp only [h3, if_false] at h
            cases ha : anyO (fun x cx => dependsOnFuel g t n x (depth + 1) cx)
                (operands g v)
                { c with visiting := fun k => if k = (v, t) then true else c.visiting k } with
            | none => rw [ha] at h; simp at h
            | some bc =>
              obtain ⟨result, c2⟩ := bc
              rw [ha] at h
              simp only [Bool.false_eq_true, if_false, Option.some.injEq,
                Prod.mk.injEq] at h
              have h2m := anyO_memoMono (fun x cx b cx' => ih x (depth + 1) cx b cx')
                (operands g v) _ result c2 ha k r hk
              rw [← h.2]
              by_cases hkey : k = (v, t)
              · rw [hkey] at hk; rw [hm] at hk; exact absurd hk (by simp)
              · show (if k = (v, t) then some result else c2.memo k) = some r
                rw [if_neg hkey]
                exact h2m

lemma dependsOn_self (g : Graph) (v : Nat) (c : Checker) :
    dependsOn g v v c = (true, c) := by
  have h : dependsOnFuel g v (MaxDepth + 2) v 0 c = some (true, c) := by
    rw [show MaxDepth + 2 = (MaxDepth + 1) + 1 from rfl]
    rw [dependsOnFuel]
    rw [if_neg (by omega), if_pos rfl]
  simp [dependsOn, h]

lemma dependsOn_memo_hit (g : Graph) (v t : Nat) (c : Checker) (b : Bool)
    (hne : v ≠ t) (hm : c.memo (v, t) = some b) :
    dependsOn g v t c = (b, c) := by
  have h : dependsOnFuel g t (MaxDepth + 2) v 0 c = some (b, c) := by
    rw [show MaxDepth + 2 = (MaxDepth + 1) + 1 from rfl]
    rw [dependsOnFuel]
    rw [if_neg (by omega), if_neg hne, hm]
  simp [dependsOn, h]

lemma dependsOn_post (g : Graph) (v t : Nat) (c : Checker) (b : Bool) (c' : Checker)
    (h : dependsOn g v t c = (b, c')) :
    (v = t ∧ b = true ∧ c' = c) ∨
    (v ≠ t ∧ c'.memo (v, t) = some b) ∨
    (v ≠ t ∧ c'.memo (v, t) = none ∧ c'.visiting (v, t) = true ∧
      b = false ∧ c' = c) := by
  have hspec := dependsOn_spec g v t c
  rw [h] at hspec
  rw [show MaxDepth + 2 = (MaxDepth + 1) + 1 from rfl] at hspec
  rw [dependsOnFuel] at hspec
  by_cases h1 : MaxDepth < 0
  · omega
  · simp only [h1, if_false] at hspec
    by_cases h2 : v = t
    · rw [if_pos h2] at hspec
      simp only [Option.some.injEq, Prod.mk.injEq] at hspec
      exact Or.inl ⟨h2, hspec.1.symm, hspec.2.symm⟩
    · simp only [h2, if_false] at hspec
      cases hm : c.memo (v, t) with
      | some r =>
        rw [hm] at hspec
        simp only [Option.some.injEq, Prod.mk.injEq] at hspec
        exact Or.inr (Or.inl ⟨h2, by rw [← hspec.2, hm, hspec.1]⟩)
      | none =>
        rw [hm] at hspec
        simp only at hspec
        by_cases h3 : c.visiting (v, t)
        · rw [if_pos h3] at hspec
          simp only [Option.some.injEq, Prod.mk.injEq] at hspec
          exact Or.inr (Or.inr ⟨h2, by rw [← hspec.2]; exact hm,
            by rw [← hspec.2]; exact h3, hspec.1.symm, hspec.2.symm⟩)
        · simp only [h3, if_false] at hspec
          cases ha : anyO (fun x cx => dependsOnFuel g t (MaxDepth + 1) x (0 + 1) cx)
              (operands g v)
              { c with visiting := fun k => if k = (v, t) then true else c.visiting k } with
          | none => rw [ha] at hspec; simp at hspec
          | some bc =>
            obtain ⟨result, c2⟩ := bc
            rw [ha] at hspec
            simp only [Bool.false_eq_true, if_false, Option.some.injEq,
              Prod.mk.injEq] at hspec
            refine Or.inr (Or.inl ⟨h2, ?_⟩)
            rw [← hspec.2]
            show (if ((v, t) : Nat × Nat) = (v, t) then some result else c2.memo (v, t)) =
              some b
            rw [if_pos rfl, hspec.1]

/-! ### Operand chains: soundness of the checker and the reference DFS -/

lemma reachesInB_self (g : Graph) (n v : Nat) : ReachesInB g n v v = true := by
  cases n <;> simp [ReachesInB]

lemma reachesInB_mono (g : Graph) :
    ∀ n m v t, n ≤ m → ReachesInB g n v t = true → ReachesInB g m v t = true := by
  intro n
  induction n with
  | zero =>
    intro m v t _ h
    simp [ReachesInB] at h
    subst h
    exact reachesInB_self g m v
  | succ n ih =>
    intro m v t hnm h
    cases m with
    | zero => omega
    | succ m =>
      simp only [ReachesInB, Bool.or_eq_true, List.any_eq_true] at h ⊢
      rcases h with h | ⟨u, hu, hr⟩
      · exact Or.inl h
      · exact Or.inr ⟨u, hu, ih m u t (by omega) hr⟩

lemma reaches_step (g : Graph) (v x t : Nat) (hx : x ∈ operands g v)
    (h : Reaches g x t) : Reaches g v t := by
  obtain ⟨n, hn⟩ := h
  exact ⟨n + 1, by
    simp only [ReachesInB, Bool.or_eq_true, List.any_eq_true]
    exact Or.inr ⟨x, hx, hn⟩⟩

/-- Every `true` entry of the memo cache is justified by an operand
chain. -/
def MemoSound (g : Graph) (c : Checker) : Prop :=
  ∀ p : Nat × Nat, c.memo p = some true → Reaches g p.1 p.2

lemma anyO_sound {g : Graph} {t : Nat}
    {f : Nat → Checker → Option (Bool × Checker)}
    (hf : ∀ x cx b cx', MemoSound g cx → f x cx = some (b, cx') →
      MemoSound g cx' ∧ (b = true → Reaches g x t)) :
    ∀ l c b c', MemoSound g c → anyO f l c = some (b, c') →
      MemoSound g c' ∧ (b = true → ∃ x ∈ l, Reaches g x t) := by
  intro l
  induction l with
  | nil =>
    intro c b c' hc h
    simp [anyO] at h
    refine ⟨h.2 ▸ hc, ?_⟩
    intro hb; rw [hb] at h; simp at h
  | cons x xs ih =>
    intro c b c' hc h
    cases hfx : f x c with
    | none => simp [anyO, hfx] at h
    | some bc =>
      obtain ⟨bx, cx'⟩ := bc
      have hx := hf x c bx cx' hc hfx
      cases bx with
      | true =>
        simp [anyO, hfx] at h
        refine ⟨h.2 ▸ hx.1, fun _ => ⟨x, by simp, hx.2 rfl⟩⟩
      | false =>
        simp only [anyO, hfx] at h
        have := ih cx' b c' hx.1 h
        exact ⟨this.1, fun hb => by
          obtain ⟨u, hu, hr⟩ := this.2 hb
          exact ⟨u, by simp [hu], hr⟩⟩

lemma dependsOnFuel_sound (g : Graph) (t : Nat) :
    ∀ fuel v depth c b c', MemoSound g c →
      dependsOnFuel g t fuel v depth c = some (b, c') →
      MemoSound g c' ∧ (b = true → Reaches g v t) := by
  intro fuel
  induction fuel with
  | zero => intro v depth c b c' _ h; simp [dependsOnFuel] at h
  | succ n ih =>
    intro v depth c b c' hc h
    rw [dependsOnFuel] at h
    by_cases h1 : MaxDepth < depth
    · rw [if_pos h1] at h
      simp only [Option.some.injEq, Prod.mk.injEq] at h
      refine ⟨h.2 ▸ hc, fun hb => ?_⟩
      rw [← h.1] at hb; simp at hb
    · rw [if_neg h1] at h
      by_cases h2 : v = t
      · rw [if_pos h2] at h
        simp only [Option.some.injEq, Prod.mk.injEq] at h
        exact ⟨h.2 ▸ hc, fun _ => ⟨0, by rw [← h2]; exact reachesInB_self g 0 v⟩⟩
      · rw [if_neg h2] at h
        cases hm : c.memo (v, t) with
        | some r =>
          rw [hm] at h
          simp only [Option.some.injEq, Prod.mk.injEq] at h
          refine ⟨h.2 ▸ hc, fun hb => ?_⟩
          rw [← h.1] at hb
          exact hc (v, t) (hb ▸ hm)
        | none =>
          rw [hm] at h
          simp only at h
          by_cases h3 : c.visiting (v, t)
          · rw [if_pos h3] at h
            simp only [Option.some.injEq, Prod.mk.injEq] at h
            refine ⟨h.2 ▸ hc, fun hb => ?_⟩
            rw [← h.1] at hb; simp at hb
          · rw [if_neg h3] at h
            cases ha : anyO (fun x cx => dependsOnFuel g t n x (depth + 1) cx)
                (operands g v)
                { c with visiting := fun k => if k = (v, t) then true else c.visiting k } with
            | none => rw [ha] at h; simp at h
            | some bc =>
              obtain ⟨result, c2⟩ := bc
              rw [ha] at h
              simp only [Bool.false_eq_true, if_false, Option.some.injEq,
                Prod.mk.injEq] at h
              have hc1 : MemoSound g
                  { c with visiting := fun k => if k = (v, t) then true else c.visiting k } :=
                fun p hp => hc p hp
              have hsound := anyO_sound (g := g) (t := t)
                (fun x cx bb cx' hcx hfx => ih x (depth + 1) cx bb cx' hcx hfx)
                (operands g v) _ result c2 hc1 ha
              have hres : result = true → Reaches g v t := by
                intro hr
                obtain ⟨x, hx, hrx⟩ := hsound.2 hr
                exact reaches_step g v x t hx hrx
              constructor
              · intro p hp
                rw [← h.2] at hp
                by_cases hkey : p = (v, t)
                · subst hkey
                  have hp' : (if ((v, t) : Nat × Nat) = (v, t) then some result
                      else c2.memo (v, t)) = some true := hp
                  rw [if_pos rfl] at hp'
                  simp only [Option.some.injEq] at hp'
                  exact hres hp'
                · have hp' : (if p = (v, t) then some result else c2.memo p) =
                      some true := hp
                  rw [if_neg hkey] at hp'
                  exact hsound.1 p hp'
              · intro hb
                rw [← h.1] at hb
                exact hres hb

lemma list_any_congr {p q : Nat → Bool} :
    ∀ l : List Nat, (∀ a ∈ l, p a = q a) → l.any p = l.any q := by
  intro l
  induction l with
  | nil => intro _; rfl
  | cons a as ih =>
    intro h
    simp only [List.any_cons, h a (by simp), ih (fun b hb => h b (by simp [hb]))]

lemma list_any_false :
    ∀ l : List Nat, (l.any fun _ => false) = false := by
  intro l
  induction l with
  | nil => rfl
  | cons a as ih => simp [ih]

lemma valueDependsOnF_eq (g : Graph) (t : Nat) :
    ∀ fuel depth v, depth ≤ MaxDepth → MaxDepth + 1 < fuel + depth →
      valueDependsOnF g t fuel v depth = ReachesInB g (MaxDepth - depth) v t := by
  intro fuel
  induction fuel with
  | zero => intro depth v hd hf; omega
  | succ n ih =>
    intro depth v hd hf
    rw [valueDependsOnF]
    rw [if_neg (by omega)]
    by_cases h2 : v = t
    · rw [if_pos h2]
      subst h2
      exact (reachesInB_self g (MaxDepth - depth) v).symm
    · rw [if_neg h2]
      by_cases hdm : depth = MaxDepth
      · subst hdm
        have hchild : ∀ u ∈ operands g v,
            valueDependsOnF g t n u (MaxDepth + 1) = false := by
          intro u _
          cases n with
          | zero => omega
          | succ m => rw [valueDependsOnF]; rw [if_pos (by omega)]
        rw [list_any_congr (operands g v) hchild]
        rw [list_any_false]
        rw [Nat.sub_self]
        simp [ReachesInB, h2]
      · have hlt : depth < MaxDepth := by omega
        have hchild : ∀ u ∈ operands g v,
            valueDependsOnF g t n u (depth + 1) = ReachesInB g (MaxDepth - (depth + 1)) u t := by
          intro u _
          exact ih (depth + 1) u (by omega) (by omega)
        rw [list_any_congr (operands g v) hchild]
        rw [show MaxDepth - depth = (MaxDepth - (depth + 1)) + 1 from by omega]
        rw [ReachesInB]
        simp [show (v == t) = false from by simp [h2]]

/-! ### Claim theorems for the dependency checker -/

/-- Claim C2: the dependency checker terminates on every finite SSA value
graph, including graphs with cyclic Phi edges: with fuel `MaxDepth + 2` —
enough nesting for the recursion bounded by the `depth > MaxDepth` cut
and the visiting-set cut — every query `dependsOnDepth(v, target, 0)`
yields a result, and no amount of extra fuel changes that result, i.e.
the recursion has completed. -/
theorem dependsOnDepth_terminates :
    ∀ (g : Graph) (v t : Nat) (c : Checker),
      (dependsOnFuel g t (MaxDepth + 2) v 0 c).isSome = true ∧
      ∀ fuel, MaxDepth + 2 ≤ fuel →
        dependsOnFuel g t fuel v 0 c = dependsOnFuel g t (MaxDepth + 2) v 0 c :=
  fun g v t c =>
    ⟨dependsOnFuel_isSome g t (MaxDepth + 2) v 0 c (by omega) (by omega),
     fun fuel hf =>
       dependsOnFuel_stabilize g t fuel (MaxDepth + 2) v 0 c (by omega)
         (by omega) (by omega)⟩

/-- Witness for C2 at the mutually recursive Phi cycle of the package's
tests. -/
theorem dependsOnDepth_terminates_witness :
    (dependsOnFuel gCycle 2 (MaxDepth + 2) 0 0 newDependencyChecker).isSome = true ∧
    dependsOnFuel gCycle 2 40 0 0 newDependencyChecker =
      dependsOnFuel gCycle 2 (MaxDepth + 2) 0 0 newDependencyChecker :=
  ⟨(dependsOnDepth_terminates gCycle 0 2 newDependencyChecker).1,
   (dependsOnDepth_terminates gCycle 0 2 newDependencyChecker).2 40 (by decide)⟩

/-- Claim C10: the visiting set is transient — after every top-level
`dependsOn` query the checker's visiting set is exactly what it was
before the query (so from the empty visiting set it returns to the empty
visiting set, for every query of an unbounded sequence). -/
theorem dependsOn_visiting_transient :
    ∀ (g : Graph) (v t : Nat) (c : Checker),
      ((dependsOn g v t c).2).visiting = c.visiting := by
  intro g v t c
  rcases hq : dependsOn g v t c with ⟨b, c'⟩
  have hspec := dependsOn_spec g v t c
  rw [hq] at hspec
  exact dependsOnFuel_visiting g t (MaxDepth + 2) v 0 c b c' hspec

/-- Counterexample to claim C1 as stated: on the two-node Phi cycle, the
query `dependsOn(phiA, target)` answers `true` and memoizes `false` for
`phiB` — a result obtained while `phiA` was in the visiting set; the
later top-level query `dependsOn(phiB, target)` on the same checker then
answers `false`, while a fresh checker answers `true`. -/
theorem dependsOn_memo_not_fresh_cex :
    (dependsOn gCycle 0 2 newDependencyChecker).1 = true ∧
    (dependsOn gCycle 1 2 (dependsOn gCycle 0 2 newDependencyChecker).2).1 = false ∧
    (dependsOn gCycle 1 2 newDependencyChecker).1 = true := by
  decide

/-- Claim C1 (amended): queries on one checker are stable — once a
checker whose visiting set is empty has answered a top-level query
`(v, target)` with `b`, every checker state whose memo extends the
resulting memo (in particular every state reached by further queries,
since the memo is insert-only) answers `(v, target)` with `b`; but a
memoized `false` obtained while an ancestor key was in the visiting set
can differ from a fresh checker's answer, as the counterexample shows. -/
theorem dependsOn_query_stable :
    ∀ (g : Graph) (v t : Nat) (c : Checker) (b : Bool) (c₁ : Checker),
      c.visiting = (fun _ => false) →
      dependsOn g v t c = (b, c₁) →
      (∀ c₂ : Checker, (∀ k r, c₁.memo k = some r → c₂.memo k = some r) →
        (dependsOn g v t c₂).1 = b) ∧
      (∀ v' t' k r, c₁.memo k = some r →
        ((dependsOn g v' t' c₁).2).memo k = some r) := by
  intro g v t c b c₁ hv h
  constructor
  · intro c₂ hext
    rcases dependsOn_post g v t c b c₁ h with ⟨hvt, hb, _⟩ | ⟨hne, hmemo⟩ |
      ⟨_, _, hvis, _, hcc⟩
    · subst hvt
      rw [dependsOn_self g v c₂]
      rw [hb]
    · have hhit := hext (v, t) b hmemo
      rw [dependsOn_memo_hit g v t c₂ b hne hhit]
    · rw [hcc, hv] at hvis
      simp at hvis
  · intro v' t' k r hk
    rcases hq : dependsOn g v' t' c₁ with ⟨b', c₂⟩
    have hspec := dependsOn_spec g v' t' c₁
    rw [hq] at hspec
    exact dependsOnFuel_memoMono g t' (MaxDepth + 2) v' 0 c₁ b' c₂ hspec k r hk

/-- Witness for C1 (amended): repeating the `phiB` query on the checker
state left by its own first run returns the first run's answer. -/
theorem dependsOn_query_stable_witness :
    (dependsOn gCycle 1 2 (dependsOn gCycle 1 2 newDependencyChecker).2).1 =
      (dependsOn gCycle 1 2 newDependencyChecker).1 :=
  (dependsOn_query_stable gCycle 1 2 newDependencyChecker
    (dependsOn gCycle 1 2 newDependencyChecker).1
    (dependsOn gCycle 1 2 newDependencyChecker).2 rfl rfl).1
    (dependsOn gCycle 1 2 newDependencyChecker).2 (fun _ _ hk => hk)

/-- Counterexample to claim C3 as stated: in `gDeep` there is an operand
chain of length 3 ≤ MaxDepth from value 0 to the target 34, yet
`dependsOn` on a fresh checker answers `false`, because the deep first
Phi branch memoized `false` for value 32 after its operand was cut by
the depth bound. -/
theorem dependsOn_bounded_chain_cex :
    (dependsOn gDeep 0 34 newDependencyChecker).1 = false ∧
    ReachesInB gDeep 3 0 34 = true ∧
    ReachesInB gDeep MaxDepth 0 34 = true := by
  decide

/-- Claim C3 (amended): `dependsOn(v, target)` on a fresh checker answers
`true` only if an operand chain from `v` to `target` through exactly the
specified operand sets exists (of some length); and the cache-free
reference DFS `valueDependsOn(v, target, 0)` answers `true` exactly when
such a chain of length at most `MaxDepth` exists.  The memoized checker
may answer `false` despite a chain within the bound, as the
counterexample shows. -/
theorem dependsOn_chain_characterization :
    (∀ (g : Graph) (v t : Nat),
      (dependsOn g v t newDependencyChecker).1 = true → Reaches g v t) ∧
    (∀ (g : Graph) (v t : Nat),
      valueDependsOn g v t 0 = ReachesInB g MaxDepth v t) := by
  constructor
  · intro g v t h
    rcases hq : dependsOn g v t newDependencyChecker with ⟨b, c'⟩
    have hspec := dependsOn_spec g v t newDependencyChecker
    rw [hq] at hspec
    have hs := dependsOnFuel_sound g t (MaxDepth + 2) v 0 newDependencyChecker b c'
      (fun p hp => by simp [newDependencyChecker] at hp) hspec
    apply hs.2
    rw [hq] at h
    exact h
  · intro g v t
    have h := valueDependsOnF_eq g t (MaxDepth + 2) 0 v (by omega) (by omega)
    simpa [valueDependsOn] using h

/-- Witness for C3 (amended): the checker's positive answer on the Phi
cycle yields an operand chain. -/
theorem dependsOn_chain_characterization_witness :
    Reaches gCycle 0 2 :=
  dependsOn_chain_characterization.1 gCycle 0 2 (by decide)

/-! ### Generic scan lemmas for the analyzer layer -/

lemma scanB_append {α : Type} (f : α → Checker → Bool × Checker) :
    ∀ (l₁ l₂ : List α) (c : Checker),
      scanB f (l₁ ++ l₂) c =
        match scanB f l₁ c with
        | (true, c') => (true, c')
        | (false, c') => scanB f l₂ c' := by
  intro l₁
  induction l₁ with
  | nil => intro l₂ c; simp [scanB]
  | cons x xs ih =>
    intro l₂ c
    simp only [List.cons_append, scanB]
    rcases f x c with ⟨b, c'⟩
    cases b
    · exact ih l₂ c'
    · rfl

lemma scanB_flatten {α : Type} (f : α → Checker → Bool × Checker) :
    ∀ (ll : List (List α)) (c : Checker),
      scanB (fun l cb => scanB f l cb) ll c = scanB f ll.flatten c := by
  intro ll
  induction ll with
  | nil => intro c; rfl
  | cons l ls ih =>
    intro c
    rw [List.flatten_cons, scanB_append]
    simp only [scanB]
    rcases hb : scanB f l c with ⟨b, c'⟩
    cases b
    · exact ih c'
    · rfl

lemma scanB_filterMap {α β : Type} (f : α → Checker → Bool × Checker)
    (toE : α → Option β) (fe : β → Checker → Bool × Checker)
    (hf : ∀ x c, (toE x = none ∧ f x c = (false, c)) ∨
      (∃ e, toE x = some e ∧ f x c = fe e c)) :
    ∀ (l : List α) (c : Checker),
      scanB f l c = scanB fe (l.filterMap toE) c := by
  intro l
  induction l with
  | nil => intro c; rfl
  | cons x xs ih =>
    intro c
    rcases hf x c with ⟨hnone, hfx⟩ | ⟨e, hsome, hfx⟩
    · rw [List.filterMap_cons_none hnone]
      simp only [scanB, hfx]
      exact ih c
    · rw [List.filterMap_cons_some hsome]
      simp only [scanB, hfx]
      rcases fe e c with ⟨b, c'⟩
      cases b
      · exact ih c'
      · rfl

lemma scanB_iff {α : Type} (f : α → Checker → Bool × Checker) :
    ∀ (l : List α) (c : Checker),
      (scanB f l c).1 = true ↔
        ∃ pre x post, l = pre ++ x :: post ∧ (f x (scanSt f pre c)).1 = true := by
  intro l
  induction l with
  | nil =>
    intro c
    simp only [scanB]
    constructor
    · intro h; simp at h
    · rintro ⟨pre, x, post, habs, _⟩
      exact absurd habs (by simp)
  | cons a as ih =>
    intro c
    rcases ha : f a c with ⟨b, c'⟩
    cases b
    · simp only [scanB, ha]
      rw [ih c']
      constructor
      · rintro ⟨pre, x, post, hsplit, hx⟩
        refine ⟨a :: pre, x, post, by simp [hsplit], ?_⟩
        simpa [scanSt, ha] using hx
      · rintro ⟨pre, x, post, hsplit, hx⟩
        cases pre with
        | nil =>
          simp at hsplit
          rw [hsplit.1] at ha
          rw [show scanSt f [] c = c from rfl] at hx
          rw [ha] at hx
          simp at hx
        | cons p ps =>
          simp at hsplit
          refine ⟨ps, x, post, hsplit.2, ?_⟩
          rw [← hsplit.1] at hx
          simpa [scanSt, ha] using hx
    · simp only [scanB, ha]
      constructor
      · intro _
        exact ⟨[], a, as, rfl, by simp [scanSt, ha]⟩
      · intro _; trivial

lemma functionHasRequestBodyLimit_eq_scan (g : Graph) (fi : FuncInfo)
    (req w : Nat) (c : Checker) :
    functionHasRequestBodyLimit g fi req w c =
      scanB (storeStep g req w) (storesOf fi) c := by
  rw [functionHasRequestBodyLimit, scanB_flatten, storesOf]
  apply scanB_filterMap
  intro x cx
  cases x with
  | store a v p => exact Or.inr ⟨(a, v), rfl, rfl⟩
  | callI cc p => exact Or.inl ⟨rfl, rfl⟩
  | goDefer cc p => exact Or.inl ⟨rfl, rfl⟩
  | makeClosure fn bs p => exact Or.inl ⟨rfl, rfl⟩
  | otherI p => exact Or.inl ⟨rfl, rfl⟩

lemma isRequestBodyStore_iff (g : Graph) (a v req w : Nat) (c : Checker) :
    (isRequestBodyStoreFromMaxBytesReader g a v req w c).1 = true ↔
      ∃ x f, g.kind a = .fieldAddr x f ∧ (dependsOn g x req c).1 = true ∧
        (isMaxBytesReaderValue g v req w (dependsOn g x req c).2 0).1 = true := by
  constructor
  · intro h
    rw [isRequestBodyStoreFromMaxBytesReader] at h
    split at h
    · next x f hk =>
      split at h
      · simp at h
      · next c' hd => exact ⟨x, f, hk, by rw [hd], by rw [hd]; exact h⟩
    · simp at h
  · rintro ⟨x, f, hk, hdep, hm⟩
    rw [isRequestBodyStoreFromMaxBytesReader]
    split
    · next x' f' hk' =>
      rw [hk] at hk'
      cases hk'
      rcases hd : dependsOn g x req c with ⟨b, c'⟩
      rw [hd] at hdep
      simp at hdep
      subst hdep
      rw [hd] at hm
      exact hm
    · next hne => exact absurd hk (hne x f)

lemma imbFuel_isSome (g : Graph) (req w : Nat) :
    ∀ fuel v depth c, depth ≤ MaxDepth + 1 → MaxDepth + 1 < fuel + depth →
      (isMaxBytesReaderFuel g req w fuel v depth c).isSome = true := by
  intro fuel
  induction fuel with
  | zero => intro v depth c hd hf; omega
  | succ n ih =>
    intro v depth c hd hf
    rw [isMaxBytesReaderFuel]
    by_cases h1 : MaxDepth < depth
    · simp [h1]
    · rw [if_neg h1]
      cases hk : g.kind v
      · exact ih _ (depth + 1) c (by omega) (by omega)
      · exact ih _ (depth + 1) c (by omega) (by omega)
      · exact ih _ (depth + 1) c (by omega) (by omega)
      · simp
      · simp
      · simp
      · simp
      · simp
      · simp
      · simp
      · exact anyO_isSome (fun e ce => ih e (depth + 1) ce (by omega) (by omega)) _ c
      · simp
      · simp
      · simp

lemma imbFuel_stabilize (g : Graph) (req w : Nat) :
    ∀ a b v depth c, depth ≤ MaxDepth + 1 → MaxDepth + 1 < a + depth →
      MaxDepth + 1 < b + depth →
      isMaxBytesReaderFuel g req w a v depth c =
        isMaxBytesReaderFuel g req w b v depth c := by
  intro a
  induction a with
  | zero => intro b v depth c hd ha hb; omega
  | succ n ih =>
    intro b v depth c hd ha hb
    cases b with
    | zero => omega
    | succ m =>
      rw [isMaxBytesReaderFuel]
      rw [show isMaxBytesReaderFuel g req w (m + 1) v depth c =
        (if MaxDepth < depth then some (false, c)
          else match g.kind v with
          | .call cc => some (maxBytesReaderCallCheck g req w cc c)
          | .changeType x => isMaxBytesReaderFuel g req w m x (depth + 1) c
          | .makeInterface x => isMaxBytesReaderFuel g req w m x (depth + 1) c
          | .typeAssert x => isMaxBytesReaderFuel g req w m x (depth + 1) c
          | .phi es =>
            anyO (fun e ce => isMaxBytesReaderFuel g req w m e (depth + 1) ce) es c
          | _ => some (false, c)) from rfl]
      by_cases h1 : MaxDepth < depth
      · simp [h1]
      · rw [if_neg h1, if_neg h1]
        cases hk : g.kind v
        · exact ih m _ (depth + 1) c (by omega) (by omega) (by omega)
        · exact ih m _ (depth + 1) c (by omega) (by omega) (by omega)
        · exact ih m _ (depth + 1) c (by omega) (by omega) (by omega)
        · rfl
        · rfl
        · rfl
        · rfl
        · rfl
        · rfl
        · rfl
        · exact anyO_congr
            (fun e ce => ih m e (depth + 1) ce (by omega) (by omega) (by omega)) _ c
        · rfl
        · rfl
        · rfl

lemma imb_spec (g : Graph) (req w v d : Nat) (c : Checker) :
    isMaxBytesReaderFuel g req w (MaxDepth + 2) v d c =
      some (isMaxBytesReaderValue g v req w c d) := by
  by_cases hd : d ≤ MaxDepth + 1
  · have hs := imbFuel_isSome g req w (MaxDepth + 2) v d c hd (by omega)
    cases h : isMaxBytesReaderFuel g req w (MaxDepth + 2) v d c with
    | none => rw [h] at hs; simp at hs
    | some r => simp [isMaxBytesReaderValue, h]
  · have h1 : MaxDepth < d := by omega
    rw [show MaxDepth + 2 = (MaxDepth + 1) + 1 from rfl, isMaxBytesReaderFuel,
      if_pos h1]
    rw [isMaxBytesReaderValue, show MaxDepth + 2 = (MaxDepth + 1) + 1 from rfl,
      isMaxBytesReaderFuel, if_pos h1]
    rfl

lemma imb_fuel_eq (g : Graph) (req w : Nat) (fuel v d : Nat) (c : Checker)
    (hd : d ≤ MaxDepth + 1) (hf : MaxDepth + 1 < fuel + d) :
    isMaxBytesReaderFuel g req w fuel v d c =
      some (isMaxBytesReaderValue g v req w c d) := by
  rw [imbFuel_stabilize g req w fuel (MaxDepth + 2) v d c hd hf (by omega)]
  exact imb_spec g req w v d c

lemma anyO_eq_scanB {F : Nat → Checker → Option (Bool × Checker)}
    {G : Nat → Checker → Bool × Checker}
    (hFG : ∀ x c, F x c = some (G x c)) :
    ∀ l c, anyO F l c = some (scanB G l c) := by
  intro l
  induction l with
  | nil => intro c; rfl
  | cons x xs ih =>
    intro c
    rw [show anyO F (x :: xs) c =
      (match F x c with
        | none => none
        | some (true, c') => some (true, c')
        | some (false, c') => anyO F xs c') from rfl]
    rw [hFG x c]
    rcases hg : G x c with ⟨b, c'⟩
    cases b
    · simp only
      rw [ih c']
      rw [show scanB G (x :: xs) c =
        (match G x c with
          | (true, c') => (true, c')
          | (false, c') => scanB G xs c') from rfl]
      rw [hg]
    · simp only
      rw [show scanB G (x :: xs) c =
        (match G x c with
          | (true, c') => (true, c')
          | (false, c') => scanB G xs c') from rfl]
      rw [hg]

lemma imv_depth_cut (g : Graph) (req w v : Nat) (c : Checker) (d : Nat)
    (h : MaxDepth < d) : isMaxBytesReaderValue g v req w c d = (false, c) := by
  rw [isMaxBytesReaderValue, show MaxDepth + 2 = (MaxDepth + 1) + 1 from rfl,
    isMaxBytesReaderFuel, if_pos h]
  rfl

lemma imv_call (g : Graph) (req w v : Nat) (c : Checker) (d : Nat)
    (cc : CallCommon) (hd : d ≤ MaxDepth) (hk : g.kind v = .call cc) :
    isMaxBytesReaderValue g v req w c d = maxBytesReaderCallCheck g req w cc c := by
  rw [isMaxBytesReaderValue, show MaxDepth + 2 = (MaxDepth + 1) + 1 from rfl,
    isMaxBytesReaderFuel, if_neg (by omega), hk]
  rfl

lemma imv_unwrap (g : Graph) (req w v x : Nat) (c : Checker) (d : Nat)
    (hd : d ≤ MaxDepth)
    (hk : g.kind v = .changeType x ∨ g.kind v = .makeInterface x ∨
      g.kind v = .typeAssert x) :
    isMaxBytesReaderValue g v req w c d =
      isMaxBytesReaderValue g x req w c (d + 1) := by
  rcases hk with hk | hk | hk <;>
  · rw [isMaxBytesReaderValue, show MaxDepth + 2 = (MaxDepth + 1) + 1 from rfl,
      isMaxBytesReaderFuel, if_neg (by omega), hk]
    show (isMaxBytesReaderFuel g req w (MaxDepth + 1) x (d + 1) c).getD (false, c) =
      isMaxBytesReaderValue g x req w c (d + 1)
    rw [imb_fuel_eq g req w (MaxDepth + 1) x (d + 1) c (by omega) (by omega)]
    rfl

lemma imv_phi (g : Graph) (req w v : Nat) (es : List Nat) (c : Checker) (d : Nat)
    (hd : d ≤ MaxDepth) (hk : g.kind v = .phi es) :
    isMaxBytesReaderValue g v req w c d =
      scanB (fun e ce => isMaxBytesReaderValue g e req w ce (d + 1)) es c := by
  rw [isMaxBytesReaderValue, show MaxDepth + 2 = (MaxDepth + 1) + 1 from rfl,
    isMaxBytesReaderFuel, if_neg (by omega), hk]
  show (anyO (fun e ce => isMaxBytesReaderFuel g req w (MaxDepth + 1) e (d + 1) ce)
      es c).getD (false, c) =
    scanB (fun e ce => isMaxBytesReaderValue g e req w ce (d + 1)) es c
  rw [anyO_eq_scanB
    (fun e ce => imb_fuel_eq g req w (MaxDepth + 1) e (d + 1) ce (by omega) (by omega))
    es c]
  rfl

lemma imv_other (g : Graph) (req w v : Nat) (c : Checker) (d : Nat)
    (hk : isUnwrapKind (g.kind v) = false) :
    isMaxBytesReaderValue g v req w c d = (false, c) := by
  rw [isMaxBytesReaderValue, show MaxDepth + 2 = (MaxDepth + 1) + 1 from rfl,
    isMaxBytesReaderFuel]
  by_cases h1 : MaxDepth < d
  · rw [if_pos h1]; rfl
  · rw [if_neg h1]
    cases hkk : g.kind v
    all_goals (try rfl)
    all_goals (rw [hkk] at hk; simp [isUnwrapKind] at hk)

lemma callCheck_iff (g : Graph) (req w : Nat) (cc : CallCommon) (c : Checker) :
    (maxBytesReaderCallCheck g req w cc c).1 = true ↔
      ∃ fid a0 a1 a2 rest, cc.staticCallee = some fid ∧
        (g.funcs fid).name = "MaxBytesReader" ∧
        (g.funcs fid).pkgPath = some "net/http" ∧
        cc.args = a0 :: a1 :: a2 :: rest ∧
        (dependsOn g a0 w c).1 = true ∧
        (dependsOn g a1 req (dependsOn g a0 w c).2).1 = true := by
  constructor
  · intro h
    rw [maxBytesReaderCallCheck] at h
    split at h
    · simp at h
    · next fid hsc =>
      by_cases hn : (g.funcs fid).name ≠ "MaxBytesReader"
      · rw [if_pos hn] at h; simp at h
      · rw [if_neg hn] at h
        by_cases hp : (g.funcs fid).pkgPath ≠ some "net/http"
        · rw [if_pos hp] at h; simp at h
        · rw [if_neg hp] at h
          split at h
          · next a0 a1 a2 rest hargs =>
            rcases hd0 : dependsOn g a0 w c with ⟨b0, c0⟩
            rw [hd0] at h
            cases b0
            · simp at h
            · exact ⟨fid, a0, a1, a2, rest, hsc, not_not.mp hn, not_not.mp hp, hargs,
                by rw [hd0], by rw [hd0]; exact h⟩
          · simp at h
  · rintro ⟨fid, a0, a1, a2, rest, hsc, hn, hp, hargs, hd0, hd1⟩
    rw [maxBytesReaderCallCheck, hsc]
    show (if (g.funcs fid).name ≠ "MaxBytesReader" then (false, c)
      else if (g.funcs fid).pkgPath ≠ some "net/http" then (false, c)
      else match cc.args with
        | a0 :: a1 :: _ :: _ =>
          match dependsOn g a0 w c with
          | (false, c') => (false, c')
          | (true, c') => dependsOn g a1 req c'
        | _ => (false, c)).1 = true
    rw [if_neg (not_not.mpr hn), if_neg (not_not.mpr hp), hargs]
    show (match dependsOn g a0 w c with
      | (false, c') => (false, c')
      | (true, c') => dependsOn g a1 req c').1 = true
    rcases hd0p : dependsOn g a0 w c with ⟨b0, c0⟩
    rw [hd0p] at hd0 hd1
    simp only at hd0
    subst hd0
    simpa using hd1

/-! ### Claim theorems for direct protection -/

/-- Claim C4: `functionHasRequestBodyLimit` holds exactly when some
`Store` of the handler's blocks (scanned in order, threading the
checker) has a `FieldAddr` address whose base depends on the request
parameter and stores a value that — through ChangeType/MakeInterface/
TypeAssert/Phi unwrapping bounded by `MaxDepth` — is a call to
`net/http.MaxBytesReader` with at least three arguments whose first two
depend on the writer and request parameters. -/
theorem functionHasRequestBodyLimit_characterization :
    ∀ (g : Graph) (fi : FuncInfo) (req w : Nat) (c : Checker),
      ((functionHasRequestBodyLimit g fi req w c).1 = true ↔
        ∃ pre av post, storesOf fi = pre ++ av :: post ∧
          (isRequestBodyStoreFromMaxBytesReader g av.1 av.2 req w
            (scanSt (storeStep g req w) pre c)).1 = true) ∧
      (∀ a v c₁, (isRequestBodyStoreFromMaxBytesReader g a v req w c₁).1 = true ↔
        ∃ x f, g.kind a = .fieldAddr x f ∧ (dependsOn g x req c₁).1 = true ∧
          (isMaxBytesReaderValue g v req w (dependsOn g x req c₁).2 0).1 = true) ∧
      (∀ v cc c₁ d, d ≤ MaxDepth → g.kind v = .call cc →
        ((isMaxBytesReaderValue g v req w c₁ d).1 = true ↔
          ∃ fid a0 a1 a2 rest, cc.staticCallee = some fid ∧
            (g.funcs fid).name = "MaxBytesReader" ∧
            (g.funcs fid).pkgPath = some "net/http" ∧
            cc.args = a0 :: a1 :: a2 :: rest ∧
            (dependsOn g a0 w c₁).1 = true ∧
            (dependsOn g a1 req (dependsOn g a0 w c₁).2).1 = true)) ∧
      (∀ v x c₁ d, d ≤ MaxDepth →
        (g.kind v = .changeType x ∨ g.kind v = .makeInterface x ∨
          g.kind v = .typeAssert x) →
        isMaxBytesReaderValue g v req w c₁ d =
          isMaxBytesReaderValue g x req w c₁ (d + 1)) ∧
      (∀ v es c₁ d, d ≤ MaxDepth → g.kind v = .phi es →
        isMaxBytesReaderValue g v req w c₁ d =
          scanB (fun e ce => isMaxBytesReaderValue g e req w ce (d + 1)) es c₁) ∧
      (∀ v c₁ d, MaxDepth < d → isMaxBytesReaderValue g v req w c₁ d = (false, c₁)) ∧
      (∀ v c₁ d, isUnwrapKind (g.kind v) = false →
        isMaxBytesReaderValue g v req w c₁ d = (false, c₁)) := by
  intro g fi req w c
  refine ⟨?_, ?_, ?_, ?_, ?_, ?_, ?_⟩
  · rw [functionHasRequestBodyLimit_eq_scan]
    exact scanB_iff (storeStep g req w) (storesOf fi) c
  · intro a v c₁
    exact isRequestBodyStore_iff g a v req w c₁
  · intro v cc c₁ d hd hk
    rw [imv_call g req w v c₁ d cc hd hk]
    exact callCheck_iff g req w cc c₁
  · intro v x c₁ d hd hk
    exact imv_unwrap g req w v x c₁ d hd hk
  · intro v es c₁ d hd hk
    exact imv_phi g req w v es c₁ d hd hk
  · intro v c₁ d hd
    exact imv_depth_cut g req w v c₁ d hd
  · intro v c₁ d hk
    exact imv_other g req w v c₁ d hk

/-- Witness for C4 at the concrete `MaxBytesReader` store graph: the
call case, an unwrap step, a Phi step, the depth cut and the
no-operand case, all discharged at explicit inputs. -/
theorem functionHasRequestBodyLimit_characterization_witness :
    ((isMaxBytesReaderValue (gStore 0) 13 10 11 newDependencyChecker 0).1 = true ↔
      ∃ fid a0 a1 a2 rest,
        (⟨some 20, [11, 10, 14], none, some 20⟩ : CallCommon).staticCallee = some fid ∧
        ((gStore 0).funcs fid).name = "MaxBytesReader" ∧
        ((gStore 0).funcs fid).pkgPath = some "net/http" ∧
        (⟨some 20, [11, 10, 14], none, some 20⟩ : CallCommon).args =
          a0 :: a1 :: a2 :: rest ∧
        (dependsOn (gStore 0) a0 11 newDependencyChecker).1 = true ∧
        (dependsOn (gStore 0) a1 10
          (dependsOn (gStore 0) a0 11 newDependencyChecker).2).1 = true) ∧
    isMaxBytesReaderValue (gStore 0) 15 10 11 newDependencyChecker 0 =
      isMaxBytesReaderValue (gStore 0) 13 10 11 newDependencyChecker 1 ∧
    isMaxBytesReaderValue (gStore 0) 16 10 11 newDependencyChecker 0 =
      scanB (fun e ce => isMaxBytesReaderValue (gStore 0) e 10 11 ce 1) [13]
        newDependencyChecker ∧
    isMaxBytesReaderValue (gStore 0) 14 10 11 newDependencyChecker 40 =
      (false, newDependencyChecker) ∧
    isMaxBytesReaderValue (gStore 0) 14 10 11 newDependencyChecker 0 =
      (false, newDependencyChecker) :=
  ⟨(functionHasRequestBodyLimit_characterization (gStore 0) ((gStore 0).funcs 1)
      10 11 newDependencyChecker).2.2.1 13 ⟨some 20, [11, 10, 14], none, some 20⟩
      newDependencyChecker 0 (by decide) (by decide),
   (functionHasRequestBodyLimit_characterization (gStore 0) ((gStore 0).funcs 1)
      10 11 newDependencyChecker).2.2.2.1 15 13 newDependencyChecker 0 (by decide)
      (Or.inl (by decide)),
   (functionHasRequestBodyLimit_characterization (gStore 0) ((gStore 0).funcs 1)
      10 11 newDependencyChecker).2.2.2.2.1 16 [13] newDependencyChecker 0 (by decide)
      (by decide),
   (functionHasRequestBodyLimit_characterization (gStore 0) ((gStore 0).funcs 1)
      10 11 newDependencyChecker).2.2.2.2.2.1 14 newDependencyChecker 40 (by decide),
   (functionHasRequestBodyLimit_characterization (gStore 0) ((gStore 0).funcs 1)
      10 11 newDependencyChecker).2.2.2.2.2.2 14 newDependencyChecker 0 (by decide)⟩

/-- Counterexample to claim C5 as stated: two graphs identical except
for the field index selected by the store's `FieldAddr` — index 0 in
one, index 1 in the other, so at most one of them can be the `Body`
field — both make `functionHasRequestBodyLimit` return `true`: the code
never inspects which field the store targets. -/
theorem requestBody_field_not_checked_cex :
    (functionHasRequestBodyLimit (gStore 0) ((gStore 0).funcs 1) 10 11
      newDependencyChecker).1 = true ∧
    (functionHasRequestBodyLimit (gStore 1) ((gStore 1).funcs 1) 10 11
      newDependencyChecker).1 = true ∧
    (gStore 0).kind 12 = .fieldAddr 10 0 ∧
    (gStore 1).kind 12 = .fieldAddr 10 1 := by
  decide

/-- Claim C5 (amended): direct protection requires the qualifying store
to write through a `FieldAddr` into the request parameter, but the code
does not constrain which field is selected — a store of a
`MaxBytesReader` result into any field of the request counts. -/
theorem functionHasRequestBodyLimit_fieldAddr_only :
    ∀ (g : Graph) (fi : FuncInfo) (req w : Nat) (c : Checker),
      (functionHasRequestBodyLimit g fi req w c).1 = true →
      ∃ pre av post x f, storesOf fi = pre ++ av :: post ∧
        g.kind av.1 = .fieldAddr x f ∧
        (dependsOn g x req (scanSt (storeStep g req w) pre c)).1 = true := by
  intro g fi req w c h
  rw [functionHasRequestBodyLimit_eq_scan] at h
  obtain ⟨pre, av, post, hsplit, hq⟩ := (scanB_iff (storeStep g req w) (storesOf fi) c).mp h
  obtain ⟨x, f, hk, hdep, _⟩ :=
    (isRequestBodyStore_iff g av.1 av.2 req w (scanSt (storeStep g req w) pre c)).mp hq
  exact ⟨pre, av, post, x, f, hsplit, hk, hdep⟩

/-- Witness for C5 (amended) at the concrete store graph. -/
theorem functionHasRequestBodyLimit_fieldAddr_only_witness :
    ∃ pre av post x f, storesOf ((gStore 0).funcs 1) = pre ++ av :: post ∧
      (gStore 0).kind av.1 = .fieldAddr x f ∧
      (dependsOn (gStore 0) x 10
        (scanSt (storeStep (gStore 0) 10 11) pre newDependencyChecker)).1 = true :=
  functionHasRequestBodyLimit_fieldAddr_only (gStore 0) ((gStore 0).funcs 1) 10 11
    newDependencyChecker (by decide)

/-! ### Handler detection -/

lemma req_not_writer (t : Ty) (h : isHTTPRequestPointerType t = true) :
    isHTTPResponseWriterType t = false := by
  cases t with
  | named n p => simp [isHTTPRequestPointerType] at h
  | ptr e => rfl
  | other => simp [isHTTPRequestPointerType] at h

lemma findHandlerGo_fst (g : Graph) :
    ∀ (ps : List Nat) (r w : Option Nat),
      (findHandlerGo g ps r w).1.isSome = true ↔
        (r.isSome = true ∨ ∃ p ∈ ps, isHTTPRequestPointerType (g.tyOf p) = true) := by
  intro ps
  induction ps with
  | nil => intro r w; simp [findHandlerGo]
  | cons p ps ih =>
    intro r w
    rw [findHandlerGo]
    cases r with
    | some rv =>
      rw [if_neg (by simp)]
      by_cases h2 : (w.isNone && isHTTPResponseWriterType (g.tyOf p)) = true
      · rw [if_pos h2, ih (some rv) (some p)]
        simp
      · rw [if_neg h2, ih (some rv) w]
        simp
    | none =>
      cases hreq : isHTTPRequestPointerType (g.tyOf p) with
      | true =>
        rw [if_pos (by simp [hreq]), ih (some p) w]
        simp [hreq]
      | false =>
        rw [if_neg (by simp [hreq])]
        by_cases h2 : (w.isNone && isHTTPResponseWriterType (g.tyOf p)) = true
        · rw [if_pos h2, ih none (some p)]
          simp [hreq]
        · rw [if_neg h2, ih none w]
          simp [hreq]

lemma findHandlerGo_snd (g : Graph) :
    ∀ (ps : List Nat) (r w : Option Nat),
      (findHandlerGo g ps r w).2.isSome = true ↔
        (w.isSome = true ∨ ∃ p ∈ ps, isHTTPResponseWriterType (g.tyOf p) = true) := by
  intro ps
  induction ps with
  | nil => intro r w; simp [findHandlerGo]
  | cons p ps ih =>
    intro r w
    rw [findHandlerGo]
    by_cases h1 : (r.isNone && isHTTPRequestPointerType (g.tyOf p)) = true
    · rw [if_pos h1, ih (some p) w]
      have hreq : isHTTPRequestPointerType (g.tyOf p) = true := by
        simp at h1; exact h1.2
      simp [req_not_writer _ hreq]
    · rw [if_neg h1]
      cases w with
      | some wv =>
        rw [if_neg (by simp), ih r (some wv)]
        simp
      | none =>
        cases hwr : isHTTPResponseWriterType (g.tyOf p) with
        | true =>
          rw [if_pos (by simp [hwr]), ih r (some p)]
          simp [hwr]
        | false =>
          rw [if_neg (by simp [hwr]), ih r none]
          simp [hwr]

/-- Claim C7: handler detection is order-insensitive —
`findHandlerRequestAndWriterParams` returns a non-nil request parameter
and a non-nil writer parameter exactly when the parameter list contains
a parameter of type `*net/http.Request` and a parameter of type
`net/http.ResponseWriter`, in either order. -/
theorem findHandlerRequestAndWriterParams_iff :
    ∀ (g : Graph) (f : Nat),
      ((findHandlerRequestAndWriterParams g f).1.isSome = true ∧
        (findHandlerRequestAndWriterParams g f).2.isSome = true) ↔
      ((∃ p ∈ (g.funcs f).params, isHTTPRequestPointerType (g.tyOf p) = true) ∧
        (∃ p ∈ (g.funcs f).params, isHTTPResponseWriterType (g.tyOf p) = true)) := by
  intro g f
  rw [findHandlerRequestAndWriterParams, findHandlerGo_fst g _ none none,
    findHandlerGo_snd g _ none none]
  simp

/-! ### The risky-call scan as a flattened fold -/

lemma riskyFold_append (g : Graph) :
    ∀ (l₁ l₂ : List (Nat × CallCommon × Nat)) (mc : List Nat × Checker),
      riskyFold g (l₁ ++ l₂) mc = riskyFold g l₂ (riskyFold g l₁ mc) := by
  intro l₁
  induction l₁ with
  | nil => intro l₂ mc; rfl
  | cons e es ih =>
    intro l₂ mc
    rw [List.cons_append, riskyFold, riskyFold]
    rcases isRiskyFormParsingCall g e.2.1 e.1 mc.2 with ⟨b, c'⟩
    cases b
    · exact ih l₂ (mc.1, c')
    · exact ih l₂ (addRedirectIssue mc.1 e.2.2, c')

lemma riskyInstrs_eq (g : Graph) (req : Nat) :
    ∀ (is : List Instr) (m : List Nat) (c : Checker),
      riskyInstrs g req is m c =
        riskyFold g (is.filterMap (fun i =>
          (callCommonOf i).map (fun cc => (req, cc, posOf i)))) (m, c) := by
  intro is
  induction is with
  | nil => intro m c; rfl
  | cons i is ih =>
    intro m c
    cases hcc : callCommonOf i with
    | none =>
      have hstep : riskyInstrs g req (i :: is) m c = riskyInstrs g req is m c := by
        rw [riskyInstrs, hcc]
      rw [hstep, List.filterMap_cons_none (by rw [hcc]; rfl)]
      exact ih m c
    | some cc =>
      have hstep : riskyInstrs g req (i :: is) m c =
          (match isRiskyFormParsingCall g cc req c with
            | (false, c') => riskyInstrs g req is m c'
            | (true, c') => riskyInstrs g req is (addRedirectIssue m (posOf i)) c') := by
        rw [riskyInstrs, hcc]
      have hfold : ∀ (tail : List (Nat × CallCommon × Nat)),
          riskyFold g ((req, cc, posOf i) :: tail) (m, c) =
            (match isRiskyFormParsingCall g cc req c with
              | (false, c') => riskyFold g tail (m, c')
              | (true, c') => riskyFold g tail (addRedirectIssue m (posOf i), c')) :=
        fun tail => rfl
      rw [hstep, List.filterMap_cons_some (by rw [hcc]; rfl), hfold]
      rcases hr : isRiskyFormParsingCall g cc req c with ⟨b, c'⟩
      cases b
      · exact ih m c'
      · exact ih (addRedirectIssue m (posOf i)) c'

lemma riskyInstrs_append (g : Graph) (req : Nat) :
    ∀ (l₁ l₂ : List Instr) (m : List Nat) (c : Checker),
      riskyInstrs g req (l₁ ++ l₂) m c =
        riskyInstrs g req l₂ (riskyInstrs g req l₁ m c).1
          (riskyInstrs g req l₁ m c).2 := by
  intro l₁
  induction l₁ with
  | nil => intro l₂ m c; rfl
  | cons i is ih =>
    intro l₂ m c
    cases hcc : callCommonOf i with
    | none =>
      have h1 : ∀ (l : List Instr) (m : List Nat) (c : Checker),
          riskyInstrs g req (i :: l) m c = riskyInstrs g req l m c := by
        intro l m c
        rw [riskyInstrs, hcc]
      rw [show (i :: is) ++ l₂ = i :: (is ++ l₂) from rfl, h1, h1]
      exact ih l₂ m c
    | some cc =>
      have h1 : ∀ (l : List Instr) (m : List Nat) (c : Checker),
          riskyInstrs g req (i :: l) m c =
            (match isRiskyFormParsingCall g cc req c with
              | (false, c') => riskyInstrs g req l m c'
              | (true, c') => riskyInstrs g req l (addRedirectIssue m (posOf i)) c') := by
        intro l m c
        rw [riskyInstrs, hcc]
      rw [show (i :: is) ++ l₂ = i :: (is ++ l₂) from rfl, h1, h1]
      rcases hr : isRiskyFormParsingCall g cc req c with ⟨b, c'⟩
      cases b
      · exact ih l₂ m c'
      · exact ih l₂ (addRedirectIssue m (posOf i)) c'

lemma riskyBlocks_eq (g : Graph) (req : Nat) :
    ∀ (blks : List (List Instr)) (m : List Nat) (c : Checker),
      riskyBlocks g req blks m c = riskyInstrs g req blks.flatten m c := by
  intro blks
  induction blks with
  | nil => intro m c; rfl
  | cons blk blks ih =>
    intro m c
    have hstep : riskyBlocks g req (blk :: blks) m c =
        riskyBlocks g req blks (riskyInstrs g req blk m c).1
          (riskyInstrs g req blk m c).2 := by
      rw [riskyBlocks]
    rw [hstep, List.flatten_cons, riskyInstrs_append]
    exact ih _ _

lemma riskyScanGo_eq (g : Graph) (prot : Nat → Bool) :
    ∀ (fns : List Nat) (m : List Nat) (c : Checker),
      riskyScanGo g prot fns m c = riskyFold g (handlerCalls g prot fns) (m, c) := by
  intro fns
  induction fns with
  | nil => intro m c; rfl
  | cons fn fns ih =>
    intro m c
    rcases hfh : findHandlerRequestAndWriterParams g fn with ⟨orq, owr⟩
    cases orq with
    | none =>
      have hstep : riskyScanGo g prot (fn :: fns) m c = riskyScanGo g prot fns m c := by
        rw [riskyScanGo, hfh]
      have hent : handlerEntries g prot fn = [] := by
        rw [handlerEntries, hfh]
      rw [hstep, handlerCalls, hent, List.nil_append]
      exact ih m c
    | some req =>
      cases owr with
      | none =>
        have hstep : riskyScanGo g prot (fn :: fns) m c = riskyScanGo g prot fns m c := by
          rw [riskyScanGo, hfh]
        have hent : handlerEntries g prot fn = [] := by
          rw [handlerEntries, hfh]
        rw [hstep, handlerCalls, hent, List.nil_append]
        exact ih m c
      | some wv =>
        have hstep : riskyScanGo g prot (fn :: fns) m c =
            (if prot fn = true then riskyScanGo g prot fns m c
              else riskyScanGo g prot fns
                (riskyBlocks g req (g.funcs fn).blocks m c).1
                (riskyBlocks g req (g.funcs fn).blocks m c).2) := by
          rw [riskyScanGo, hfh]
        have hent : handlerEntries g prot fn =
            (if prot fn = true then []
              else (g.funcs fn).blocks.flatten.filterMap (fun i =>
                (callCommonOf i).map (fun cc => (req, cc, posOf i)))) := by
          rw [handlerEntries, hfh]
        by_cases hp : prot fn = true
        · rw [hstep, if_pos hp, handlerCalls, hent, if_pos hp, List.nil_append]
          exact ih m c
        · rw [hstep, if_neg hp, handlerCalls, hent, if_neg hp]
          rw [riskyFold_append, riskyBlocks_eq, riskyInstrs_eq]
          exact ih _ _

lemma riskyFold_snd (g : Graph) :
    ∀ (l : List (Nat × CallCommon × Nat)) (m : List Nat) (c : Checker),
      (riskyFold g l (m, c)).2 = riskyFoldSt g l c := by
  intro l
  induction l with
  | nil => intro m c; rfl
  | cons e es ih =>
    intro m c
    rw [riskyFold, riskyFoldSt]
    rcases hr : isRiskyFormParsingCall g e.2.1 e.1 c with ⟨b, c'⟩
    cases b
    · exact ih m c'
    · exact ih (addRedirectIssue m e.2.2) c'

lemma addRedirectIssue_mem (m : List Nat) (q p : Nat) :
    p ∈ addRedirectIssue m q ↔ p ∈ m ∨ p = q := by
  rw [addRedirectIssue]
  by_cases hq : q ∈ m
  · rw [if_pos hq]
    constructor
    · exact Or.inl
    · rintro (h | h)
      · exact h
      · rw [h]; exact hq
  · rw [if_neg hq]
    simp

lemma riskyFold_mem (g : Graph) :
    ∀ (l : List (Nat × CallCommon × Nat)) (m : List Nat) (c : Checker) (p : Nat),
      (p ∈ (riskyFold g l (m, c)).1) ↔
        p ∈ m ∨ ∃ pre e post, l = pre ++ e :: post ∧
          (isRiskyFormParsingCall g e.2.1 e.1 (riskyFoldSt g pre c)).1 = true ∧
          p = e.2.2 := by
  intro l
  induction l with
  | nil =>
    intro m c p
    constructor
    · intro h; exact Or.inl h
    · rintro (h | ⟨pre, e, post, habs, _⟩)
      · exact h
      · exact absurd habs (by simp)
  | cons e es ih =>
    intro m c p
    rw [riskyFold]
    rcases hr : isRiskyFormParsingCall g e.2.1 e.1 c with ⟨b, c'⟩
    cases b
    · simp only
      rw [ih m c' p]
      constructor
      · rintro (h | ⟨pre, e', post, hsplit, hq, hp⟩)
        · exact Or.inl h
        · refine Or.inr ⟨e :: pre, e', post, by rw [hsplit]; rfl, ?_, hp⟩
          rw [show riskyFoldSt g (e :: pre) c = riskyFoldSt g pre c' from by
            rw [riskyFoldSt, hr]]
          exact hq
      · rintro (h | ⟨pre, e', post, hsplit, hq, hp⟩)
        · exact Or.inl h
        · cases pre with
          | nil =>
            simp at hsplit
            rw [hsplit.1] at hr
            rw [show riskyFoldSt g [] c = c from rfl] at hq
            rw [hr] at hq
            simp at hq
          | cons e0 pre' =>
            simp at hsplit
            refine Or.inr ⟨pre', e', post, hsplit.2, ?_, hp⟩
            rw [← hsplit.1] at hq
            rw [show riskyFoldSt g (e :: pre') c = riskyFoldSt g pre' c' from by
              rw [riskyFoldSt, hr]] at hq
            exact hq
    · simp only
      rw [ih (addRedirectIssue m e.2.2) c' p, addRedirectIssue_mem]
      constructor
      · rintro ((h | h) | ⟨pre, e', post, hsplit, hq, hp⟩)
        · exact Or.inl h
        · exact Or.inr ⟨[], e, es, rfl, by
            rw [show riskyFoldSt g [] c = c from rfl, hr], h⟩
        · refine Or.inr ⟨e :: pre, e', post, by rw [hsplit]; rfl, ?_, hp⟩
          rw [show riskyFoldSt g (e :: pre) c = riskyFoldSt g pre c' from by
            rw [riskyFoldSt, hr]]
          exact hq
      · rintro (h | ⟨pre, e', post, hsplit, hq, hp⟩)
        · exact Or.inl (Or.inl h)
        · cases pre with
          | nil =>
            simp at hsplit
            exact Or.inl (Or.inr (by rw [hp, hsplit.1]))
          | cons e0 pre' =>
            simp at hsplit
            refine Or.inr ⟨pre', e', post, hsplit.2, ?_, hp⟩
            rw [← hsplit.1] at hq
            rw [show riskyFoldSt g (e :: pre') c = riskyFoldSt g pre' c' from by
              rw [riskyFoldSt, hr]] at hq
            exact hq

lemma addRedirectIssue_nodup (m : List Nat) (q : Nat) (h : m.Nodup) :
    (addRedirectIssue m q).Nodup := by
  rw [addRedirectIssue]
  by_cases hq : q ∈ m
  · rw [if_pos hq]; exact h
  · rw [if_neg hq]
    simp [List.nodup_append, h, hq]

lemma riskyFold_nodup (g : Graph) :
    ∀ (l : List (Nat × CallCommon × Nat)) (m : List Nat) (c : Checker),
      m.Nodup → (riskyFold g l (m, c)).1.Nodup := by
  intro l
  induction l with
  | nil => intro m c h; exact h
  | cons e es ih =>
    intro m c h
    rw [riskyFold]
    rcases hr : isRiskyFormParsingCall g e.2.1 e.1 c with ⟨b, c'⟩
    cases b
    · exact ih m c' h
    · exact ih (addRedirectIssue m e.2.2) c' (addRedirectIssue_nodup m e.2.2 h)

lemma run_some_eq (g : Graph) (s : List Nat) :
    runFormParsingLimitAnalysis g (some s) =
      (if (riskyScanGo g (computeFormParsingHandlerProtection g s newDependencyChecker).1
          (collectAnalyzerFunctions s) []
          (computeFormParsingHandlerProtection g s newDependencyChecker).2).1 = []
        then (none, none)
        else (some (riskyScanGo g
          (computeFormParsingHandlerProtection g s newDependencyChecker).1
          (collectAnalyzerFunctions s) []
          (computeFormParsingHandlerProtection g s newDependencyChecker).2).1, none)) :=
  rfl

lemma isRiskyFormParsingCall_iff (g : Graph) (cc : CallCommon) (req : Nat)
    (c₁ : Checker) :
    (isRiskyFormParsingCall g cc req c₁).1 = true ↔
      ∃ fid rt a0 rest, cc.staticCallee = some fid ∧
        (g.funcs fid).recv = some rt ∧
        isHTTPRequestPointerType rt = true ∧
        ((g.funcs fid).name = "ParseForm" ∨
          (g.funcs fid).name = "ParseMultipartForm" ∨
          (g.funcs fid).name = "FormValue" ∨
          (g.funcs fid).name = "PostFormValue") ∧
        cc.args = a0 :: rest ∧
        (dependsOn g a0 req c₁).1 = true := by
  constructor
  · intro h
    rw [isRiskyFormParsingCall] at h
    split at h
    · simp at h
    · next fid hsc =>
      split at h
      · simp at h
      · next rt hrecv =>
        by_cases hreq : isHTTPRequestPointerType rt = true
        · rw [if_neg (by simp [hreq])] at h
          by_cases hnm : ((g.funcs fid).name = "ParseForm" ∨
              (g.funcs fid).name = "ParseMultipartForm" ∨
              (g.funcs fid).name = "FormValue" ∨
              (g.funcs fid).name = "PostFormValue")
          · rw [if_neg (by tauto)] at h
            split at h
            · simp at h
            · next a0 rest hargs =>
              exact ⟨fid, rt, a0, rest, hsc, hrecv, hreq, hnm, hargs, h⟩
          · rw [if_pos (by tauto)] at h
            simp at h
        · rw [if_pos (by simp [Bool.not_eq_true] at hreq ⊢; exact hreq)] at h
          simp at h
  · rintro ⟨fid, rt, a0, rest, hsc, hrecv, hreq, hnm, hargs, hdep⟩
    rw [isRiskyFormParsingCall, hsc]
    show (match (g.funcs fid).recv with
      | none => ((false : Bool), c₁)
      | some rt =>
        if !isHTTPRequestPointerType rt then ((false : Bool), c₁)
        else
          if (g.funcs fid).name ≠ "ParseForm" ∧
              (g.funcs fid).name ≠ "ParseMultipartForm" ∧
              (g.funcs fid).name ≠ "FormValue" ∧
              (g.funcs fid).name ≠ "PostFormValue" then ((false : Bool), c₁)
          else
            match cc.args with
            | [] => ((false : Bool), c₁)
            | a0 :: _ => dependsOn g a0 req c₁).1 = true
    rw [hrecv]
    show (if !isHTTPRequestPointerType rt then ((false : Bool), c₁)
      else
        if (g.funcs fid).name ≠ "ParseForm" ∧
            (g.funcs fid).name ≠ "ParseMultipartForm" ∧
            (g.funcs fid).name ≠ "FormValue" ∧
            (g.funcs fid).name ≠ "PostFormValue" then ((false : Bool), c₁)
        else
          match cc.args with
          | [] => ((false : Bool), c₁)
          | a0 :: _ => dependsOn g a0 req c₁).1 = true
    rw [if_neg (by simp [hreq]), if_neg (by tauto), hargs]
    exact hdep

lemma handlerEntries_protected (g : Graph) (prot : Nat → Bool) (fn : Nat)
    (hp : prot fn = true) : handlerEntries g prot fn = [] := by
  rcases hfh : findHandlerRequestAndWriterParams g fn with ⟨orq, owr⟩
  cases orq with
  | none => rw [handlerEntries, hfh]
  | some req =>
    cases owr with
    | none => rw [handlerEntries, hfh]
    | some wv =>
      have h0 : handlerEntries g prot fn =
          (if prot fn = true then []
            else (g.funcs fn).blocks.flatten.filterMap (fun i =>
              (callCommonOf i).map (fun cc => (req, cc, posOf i)))) := by
        rw [handlerEntries, hfh]
      rw [h0, if_pos hp]

/-! ### Claim theorems for the analyzer run -/

/-- Claim C6: the findings of `runFormParsingLimitAnalysis` are exactly
the positions of the risky form-parsing calls of unprotected handlers —
a position is in the returned issue list precisely when the flattened
risky-call scan (which skips non-handlers and protected handlers)
contains a call that tests risky at the checker state threaded to it;
protected handlers contribute no scan entries at all; and a call is
risky exactly when its static callee is a `*net/http.Request` method
named `ParseForm`, `ParseMultipartForm`, `FormValue` or `PostFormValue`
whose receiver argument depends on the handler's request parameter. -/
theorem runFormParsingLimitAnalysis_findings_characterization :
    ∀ (g : Graph) (s : List Nat) (p : Nat),
      (p ∈ (runFormParsingLimitAnalysis g (some s)).1.getD [] ↔
        ∃ pre e post,
          handlerCalls g
            (computeFormParsingHandlerProtection g s newDependencyChecker).1 s =
            pre ++ e :: post ∧
          (isRiskyFormParsingCall g e.2.1 e.1
            (riskyFoldSt g pre
              (computeFormParsingHandlerProtection g s newDependencyChecker).2)).1 =
            true ∧
          p = e.2.2) ∧
      (∀ (prot : Nat → Bool) (fn : Nat), prot fn = true →
        handlerEntries g prot fn = []) ∧
      (∀ (cc : CallCommon) (req : Nat) (c₁ : Checker),
        (isRiskyFormParsingCall g cc req c₁).1 = true ↔
        ∃ fid rt a0 rest, cc.staticCallee = some fid ∧
          (g.funcs fid).recv = some rt ∧
          isHTTPRequestPointerType rt = true ∧
          ((g.funcs fid).name = "ParseForm" ∨
            (g.funcs fid).name = "ParseMultipartForm" ∨
            (g.funcs fid).name = "FormValue" ∨
            (g.funcs fid).name = "PostFormValue") ∧
          cc.args = a0 :: rest ∧
          (dependsOn g a0 req c₁).1 = true) := by
  intro g s p
  refine ⟨?_, handlerEntries_protected g, isRiskyFormParsingCall_iff g⟩
  have hscan : riskyScanGo g
      (computeFormParsingHandlerProtection g s newDependencyChecker).1 s []
      (computeFormParsingHandlerProtection g s newDependencyChecker).2 =
      riskyFold g (handlerCalls g
        (computeFormParsingHandlerProtection g s newDependencyChecker).1 s)
        ([], (computeFormParsingHandlerProtection g s newDependencyChecker).2) :=
    riskyScanGo_eq g _ s [] _
  rw [run_some_eq]
  simp only [collectAnalyzerFunctions]
  by_cases hempty : (riskyScanGo g
      (computeFormParsingHandlerProtection g s newDependencyChecker).1 s []
      (computeFormParsingHandlerProtection g s newDependencyChecker).2).1 = []
  · rw [if_pos hempty]
    simp only [Option.getD_none]
    constructor
    · intro h; simp at h
    · rintro ⟨pre, e, post, hsplit, hq, hp⟩
      exfalso
      have hmem : p ∈ (riskyFold g (handlerCalls g
          (computeFormParsingHandlerProtection g s newDependencyChecker).1 s)
          ([], (computeFormParsingHandlerProtection g s newDependencyChecker).2)).1 := by
        rw [riskyFold_mem]
        exact Or.inr ⟨pre, e, post, hsplit, hq, hp⟩
      rw [← hscan, hempty] at hmem
      simp at hmem
  · rw [if_neg hempty]
    simp only [Option.getD_some]
    rw [hscan, riskyFold_mem]
    simp

/-- Witness for C6: on the concrete protected handler, the protection
map marks function 1 and its body contributes no risky-call scan
entries. -/
theorem runFormParsingLimitAnalysis_findings_characterization_witness :
    handlerEntries (gProtRun true)
      (computeFormParsingHandlerProtection (gProtRun true) [1]
        newDependencyChecker).1 1 = [] :=
  (runFormParsingLimitAnalysis_findings_characterization (gProtRun true) [1] 0).2.1
    (computeFormParsingHandlerProtection (gProtRun true) [1]
      newDependencyChecker).1 1 (by decide)

/-- Claim C8: finding deduplication by position — the issue list
returned by `runFormParsingLimitAnalysis` never contains two issues at
the same source position, for every SSA input. -/
theorem runFormParsingLimitAnalysis_dedup :
    ∀ (g : Graph) (pass : Option (List Nat)),
      ((runFormParsingLimitAnalysis g pass).1.getD []).Nodup := by
  intro g pass
  cases pass with
  | none => simp [runFormParsingLimitAnalysis]
  | some s =>
    rw [run_some_eq]
    by_cases hempty : (riskyScanGo g
        (computeFormParsingHandlerProtection g s newDependencyChecker).1
        (collectAnalyzerFunctions s) []
        (computeFormParsingHandlerProtection g s newDependencyChecker).2).1 = []
    · rw [if_pos hempty]
      simp
    · rw [if_neg hempty]
      simp only [Option.getD_some]
      rw [riskyScanGo_eq]
      exact riskyFold_nodup g _ [] _ List.nodup_nil

/-- Claim C9: error behavior of the analyzer run — an absent SSA result
yields an error and no findings; a present SSA result never yields an
error, and yields a nil result exactly when the risky-call scan found
nothing (in particular when there are no source functions); findings and
an error are never returned together. -/
theorem runFormParsingLimitAnalysis_error_behavior :
    ∀ (g : Graph),
      ((runFormParsingLimitAnalysis g none).1 = none ∧
        (runFormParsingLimitAnalysis g none).2.isSome = true) ∧
      (∀ s, (runFormParsingLimitAnalysis g (some s)).2 = none) ∧
      (runFormParsingLimitAnalysis g (some []) = (none, none)) ∧
      (∀ s, (runFormParsingLimitAnalysis g (some s)).1 = none ↔
        (riskyScanGo g
          (computeFormParsingHandlerProtection g s newDependencyChecker).1
          (collectAnalyzerFunctions s) []
          (computeFormParsingHandlerProtection g s newDependencyChecker).2).1 = []) ∧
      (∀ pass, (runFormParsingLimitAnalysis g pass).1 = none ∨
        (runFormParsingLimitAnalysis g pass).2 = none) := by
  intro g
  have h2 : ∀ s, (runFormParsingLimitAnalysis g (some s)).2 = none := by
    intro s
    rw [run_some_eq]
    by_cases hempty : (riskyScanGo g
        (computeFormParsingHandlerProtection g s newDependencyChecker).1
        (collectAnalyzerFunctions s) []
        (computeFormParsingHandlerProtection g s newDependencyChecker).2).1 = []
    · rw [if_pos hempty]
    · rw [if_neg hempty]
  refine ⟨⟨rfl, rfl⟩, h2, ?_, ?_, ?_⟩
  · rw [run_some_eq]
    rw [if_pos (by rw [collectAnalyzerFunctions, riskyScanGo])]
  · intro s
    rw [run_some_eq]
    by_cases hempty : (riskyScanGo g
        (computeFormParsingHandlerProtection g s newDependencyChecker).1
        (collectAnalyzerFunctions s) []
        (computeFormParsingHandlerProtection g s newDependencyChecker).2).1 = []
    · rw [if_pos hempty]
      simp [hempty]
    · rw [if_neg hempty]
      simp [hempty]
  · intro pass
    cases pass with
    | none => exact Or.inl rfl
    | some s => exact Or.inr (h2 s)
